import Mathlib

/-!
Verification of the domain-identity resolution and alias-selection core of
`masked_fastmail` (Go). Go strings are modelled as `List Char` (one entry per
unicode scalar; on ASCII data this coincides byte-for-byte with Go's byte
strings, and all concrete inputs used below are ASCII). Where the Go standard
library consults full Unicode tables (`strings.ToLower`, `unicode.IsSpace`)
the model keeps the ASCII portion of the table (plus the Latin-1 spaces for
`IsSpace`), which agrees with Go on every ASCII string. Machine integers are
modelled as `Nat` (the only one that matters is `math.MaxInt`, kept at its
64-bit value). Fallible Go functions returning `(T, error)` are modelled as
`Option`/`Except` values; error messages built with `fmt.Errorf` are modelled
as structured constructors carrying the interpolated data.
-/

/-- Go string, one list entry per rune. -/
abbrev GoStr := List Char

namespace MaskedFastmail

/-- `unicode.IsSpace` restricted to the ASCII + Latin-1 rows of Go's table:
`'\t', '\n', '\v', '\f', '\r', ' ', U+0085 (NEL), U+00A0 (NBSP)`. -/
def goIsSpace (c : Char) : Bool :=
  c = ' ' || c = '\t' || c = '\n' || c = '\x0b' || c = '\x0c' || c = '\r' ||
  c = '\x85' || c = '\xa0'

/-- Drop leading characters satisfying `p` (left half of `strings.TrimFunc`). -/
def goDropWhile (p : Char → Bool) : GoStr → GoStr
  | [] => []
  | c :: rest => if p c then goDropWhile p rest else c :: rest

/-- `strings.TrimSpace`: strip leading and trailing white space. -/
def goTrimSpace (s : GoStr) : GoStr :=
  goDropWhile goIsSpace ((goDropWhile goIsSpace s.reverse).reverse)

/-- `strings.HasPrefix`: first argument starts with the second. -/
def goStartsWith : GoStr → GoStr → Bool
  | _, [] => true
  | [], _ :: _ => false
  | c :: s, p :: ps => c = p && goStartsWith s ps

/-- `strings.HasSuffix`. -/
def goEndsWith (s pat : GoStr) : Bool :=
  goStartsWith s.reverse pat.reverse

/-- `strings.Index` (first occurrence of a substring), as an `Option` index. -/
def goIndexStr : GoStr → GoStr → Option Nat
  | [], pat => if goStartsWith [] pat then some 0 else none
  | c :: rest, pat =>
    if goStartsWith (c :: rest) pat then some 0
    else (goIndexStr rest pat).map (· + 1)

/-- `strings.Contains`. -/
def goContainsStr (s pat : GoStr) : Bool :=
  (goIndexStr s pat).isSome

/-- `strings.IndexByte`-style first index of a single character. -/
def goIndexChar : GoStr → Char → Option Nat
  | [], _ => none
  | c :: rest, t => if c = t then some 0 else (goIndexChar rest t).map (· + 1)

/-- `strings.LastIndex` for a single-character pattern
(`strings.LastIndexByte`). -/
def goLastIndexChar (s : GoStr) (t : Char) : Option Nat :=
  (goIndexChar s.reverse t).map (fun i => s.length - 1 - i)

/-- `strings.ContainsAny` restricted to an explicit list of characters. -/
def goContainsAnyOf (s : GoStr) (set : List Char) : Bool :=
  s.any (fun c => set.contains c)

/-- `strings.Count` for a single-character pattern: number of occurrences. -/
def goCountChar (s : GoStr) (t : Char) : Nat :=
  s.countP (fun c => c = t)

/-- `strings.TrimSuffix`: drop one copy of the suffix when present. -/
def goTrimSuffix (s pat : GoStr) : GoStr :=
  if goEndsWith s pat then s.take (s.length - pat.length) else s

/-- `strings.TrimRight` with the one-character cutset used by the source
(`"/"`): drop every trailing slash. -/
def goTrimRightSlash (s : GoStr) : GoStr :=
  (goDropWhile (fun c => c = '/') s.reverse).reverse

/-- `strings.ToLower` restricted to the ASCII row of the Unicode tables
(the only row exercised by the source's tests and by every concrete input
below). -/
def goToLowerChar (c : Char) : Char :=
  if 'A' ≤ c && c ≤ 'Z' then Char.ofNat (c.toNat + 32) else c

/-- `strings.ToLower` on a whole string. -/
def goToLower (s : GoStr) : GoStr := s.map goToLowerChar

/-- `strings.Cut`: the parts before and after the first occurrence of `sep`
(whole string and empty when `sep` is absent). -/
def goCut (s : GoStr) (sep : Char) : GoStr × GoStr :=
  match goIndexChar s sep with
  | some i => (s.take i, s.drop (i + 1))
  | none => (s, [])

/-!
### Model of the `net/url` slice used by `normalizeOrigin`

`normalizeOrigin` calls `url.Parse` and reads only `parsed.Scheme` and
`parsed.Hostname()`. The definitions below translate the corresponding
functions of Go's `net/url` (`Parse`, `parse` with `viaRequest = false`,
`getScheme`, `split`, `parseAuthority`, `parseHost`, `unescape`,
`shouldEscape` for the host/zone modes, `validOptionalPort`,
`validUserinfo`, `splitHostPort`, `Hostname`) at rune granularity, keeping
every error path (modelled as `none`) but dropping the error messages and
the URL components `normalizeOrigin` never reads (path, query, fragment,
user info are parsed/validated but not stored).
-/

/-- `net/url.stringContainsCTLByte`. -/
def containsCTL (s : GoStr) : Bool :=
  s.any (fun c => c.toNat < 0x20 || c.toNat = 0x7f)

/-- ASCII letter, as in `getScheme`'s first switch case. -/
def isSchemeAlpha (c : Char) : Bool :=
  ('a' ≤ c && c ≤ 'z') || ('A' ≤ c && c ≤ 'Z')

/-- ASCII digit. -/
def isAsciiDigit (c : Char) : Bool := '0' ≤ c && c ≤ '9'

/-- `net/url.split(s, sep, cutc)`. -/
def urlSplit (s : GoStr) (sep : Char) (cutc : Bool) : GoStr × GoStr :=
  match goIndexChar s sep with
  | none => (s, [])
  | some i => if cutc then (s.take i, s.drop (i + 1)) else (s.take i, s.drop i)

/-- Loop of `net/url.getScheme`; `acc` holds the characters scanned so far in
reverse (Go tracks the index `i`; `acc = []` corresponds to `i == 0`).
`none` models the sole error (`"missing protocol scheme"`). -/
def getSchemeAux (acc : GoStr) : GoStr → Option (GoStr × GoStr)
  | [] => some ([], acc.reverse)
  | c :: rest =>
    if isSchemeAlpha c then getSchemeAux (c :: acc) rest
    else if isAsciiDigit c || c = '+' || c = '-' || c = '.' then
      if acc = [] then some ([], c :: rest) else getSchemeAux (c :: acc) rest
    else if c = ':' then
      if acc = [] then none else some (acc.reverse, rest)
    else some ([], acc.reverse ++ c :: rest)

/-- `net/url.getScheme`: maybe-split a leading `scheme:`. -/
def getSchemeG (s : GoStr) : Option (GoStr × GoStr) := getSchemeAux [] s

/-- `net/url.ishex`. -/
def isHexDigit (c : Char) : Bool :=
  ('0' ≤ c && c ≤ '9') || ('a' ≤ c && c ≤ 'f') || ('A' ≤ c && c ≤ 'F')

/-- `net/url.unhex`. -/
def unhex (c : Char) : Nat :=
  if '0' ≤ c && c ≤ '9' then c.toNat - '0'.toNat
  else if 'a' ≤ c && c ≤ 'f' then c.toNat - 'a'.toNat + 10
  else if 'A' ≤ c && c ≤ 'F' then c.toNat - 'A'.toNat + 10
  else 0

/-- `net/url.shouldEscape(c, encodeHost)` (identical for `encodeZone`):
everything must be escaped except alphanumerics, the sub-delims plus
`: [ ] < > "` admitted inside hosts, and the unreserved marks. -/
def shouldEscapeHost (c : Char) : Bool :=
  if ('a' ≤ c && c ≤ 'z') || ('A' ≤ c && c ≤ 'Z') || ('0' ≤ c && c ≤ '9') then false
  else if c ∈ ['!', '$', '&', '\'', '(', ')', '*', '+', ',', ';', '=',
                ':', '[', ']', '<', '>', '"'] then false
  else if c ∈ ['-', '_', '.', '~'] then false
  else true

/-- The `encoding` modes of `net/url` reachable from `url.Parse`. -/
inductive EscMode where
  | host | zone | userPassword | path | fragment
deriving DecidableEq

/-- `net/url.unescape`: validate (and decode) percent escapes. `none` models
`EscapeError`/`InvalidHostError`. Go validates in a first pass and decodes in
a second; the model does both in one structural pass, which returns the same
result. Decoded bytes are kept as one list entry each. -/
def unescapeG (mode : EscMode) : GoStr → Option GoStr
  | [] => some []
  | c :: rest =>
    if c = '%' then
      match rest with
      | h1 :: h2 :: rest' =>
        if !(isHexDigit h1 && isHexDigit h2) then none
        else
          let v := unhex h1 * 16 + unhex h2
          if mode = .host && unhex h1 < 8 && !(h1 = '2' && h2 = '5') then none
          else if mode = .zone && !(h1 = '2' && h2 = '5') && v ≠ 32 &&
                  shouldEscapeHost (Char.ofNat v) then none
          else (unescapeG mode rest').map (fun t => Char.ofNat v :: t)
      | _ => none
    else if c = '+' then
      -- '+' is special-cased only for the query mode, which Parse never uses
      (unescapeG mode rest).map (fun t => '+' :: t)
    else if (mode = .host || mode = .zone) && c.toNat < 0x80 && shouldEscapeHost c then
      none
    else (unescapeG mode rest).map (fun t => c :: t)

/-- `net/url.validOptionalPort`. -/
def validOptionalPort : GoStr → Bool
  | [] => true
  | ':' :: rest => rest.all isAsciiDigit
  | _ => false

/-- `net/url.validUserinfo`. -/
def validUserinfo (s : GoStr) : Bool :=
  s.all fun r =>
    ('A' ≤ r && r ≤ 'Z') || ('a' ≤ r && r ≤ 'z') || ('0' ≤ r && r ≤ '9') ||
    r ∈ ['-', '.', '_', ':', '~', '!', '$', '&', '\'', '(', ')', '*', '+',
         ',', ';', '=', '%', '@']

/-- `net/url.parseHost`. -/
def parseHostG (host : GoStr) : Option GoStr :=
  if goStartsWith host ['['] then
    match goLastIndexChar host ']' with
    | none => none
    | some i =>
      if !validOptionalPort (host.drop (i + 1)) then none
      else
        match goIndexStr (host.take i) ['%', '2', '5'] with
        | some zone => do
          let h1 ← unescapeG .host (host.take zone)
          let h2 ← unescapeG .zone ((host.take i).drop zone)
          let h3 ← unescapeG .host (host.drop i)
          pure (h1 ++ h2 ++ h3)
        | none => unescapeG .host host
  else
    match goLastIndexChar host ':' with
    | some i =>
      if !validOptionalPort (host.drop i) then none else unescapeG .host host
    | none => unescapeG .host host

/-- `net/url.parseAuthority`, returning the parsed host (the user info is
validated and unescaped exactly as in Go, but its value is discarded). -/
def parseAuthorityG (authority : GoStr) : Option GoStr :=
  match goLastIndexChar authority '@' with
  | none => parseHostG authority
  | some i => do
    let host ← parseHostG (authority.drop (i + 1))
    let userinfo := authority.take i
    if !validUserinfo userinfo then none
    else
      match goIndexChar userinfo ':' with
      | none => do
        let _ ← unescapeG .userPassword userinfo
        pure host
      | some j => do
        let _ ← unescapeG .userPassword (userinfo.take j)
        let _ ← unescapeG .userPassword (userinfo.drop (j + 1))
        pure host

/-- The two URL components `normalizeOrigin` reads back. -/
structure GoURL where
  scheme : GoStr
  host : GoStr
deriving DecidableEq

/-- `net/url.parse(rawURL, viaRequest := false)`, keeping scheme and host.
`setPath`'s escape validation is performed (it can fail the parse) though the
path itself is discarded. -/
def parseG (rawURL : GoStr) : Option GoURL :=
  if containsCTL rawURL then none
  else if rawURL = ['*'] then some ⟨[], []⟩
  else
    match getSchemeG rawURL with
    | none => none
    | some (scheme0, rest0) =>
      let scheme := goToLower scheme0
      let rest1 :=
        if goEndsWith rest0 ['?'] && !goContainsStr (goTrimSuffix rest0 ['?']) ['?'] then
          goTrimSuffix rest0 ['?']  -- ForceQuery
        else (urlSplit rest0 '?' true).1
      if !goStartsWith rest1 ['/'] then
        if scheme ≠ [] then some ⟨scheme, []⟩  -- rootless path: opaque, no host
        else if goContainsStr (goCut rest1 '/').1 [':'] then
          none  -- "first path segment in URL cannot contain colon"
        else
          match unescapeG .path rest1 with  -- setPath
          | none => none
          | some _ => some ⟨scheme, []⟩
      else
        if (decide (scheme ≠ []) || !goStartsWith rest1 ['/', '/', '/']) &&
            goStartsWith rest1 ['/', '/'] then
          let afterSlashes := rest1.drop 2
          let (authority, rest2) :=
            match goIndexChar afterSlashes '/' with
            | some i => (afterSlashes.take i, afterSlashes.drop i)
            | none => (afterSlashes, ([] : GoStr))
          match parseAuthorityG authority with
          | none => none
          | some host =>
            match unescapeG .path rest2 with  -- setPath
            | none => none
            | some _ => some ⟨scheme, host⟩
        else
          match unescapeG .path rest1 with  -- setPath (OmitHost case included)
          | none => none
          | some _ => some ⟨scheme, []⟩

/-- `net/url.Parse`: cut the fragment, parse, then validate the fragment's
escapes (`setFragment` can fail the parse). -/
def urlParse (rawURL : GoStr) : Option GoURL :=
  let (u, frag) := urlSplit rawURL '#' true
  match parseG u with
  | none => none
  | some url =>
    if frag = [] then some url
    else
      match unescapeG .fragment frag with
      | none => none
      | some _ => some url

/-- `net/url.splitHostPort`, host part only. -/
def splitHostPortG (hostPort : GoStr) : GoStr :=
  let host :=
    match goLastIndexChar hostPort ':' with
    | some colon =>
      if validOptionalPort (hostPort.drop colon) then hostPort.take colon else hostPort
    | none => hostPort
  if goStartsWith host ['['] && goEndsWith host [']'] then
    (host.drop 1).take (host.length - 2)
  else host

/-- `net/url.URL.Hostname`. -/
def hostnameG (u : GoURL) : GoStr := splitHostPortG u.host

/-! ### Domain canonicalizer (`normalizeOrigin`, `domainsEqual`) -/

/-- The constant `defaultScheme = "https"`. -/
def defaultScheme : GoStr := ['h', 't', 't', 'p', 's']

/-- The scheme separator literal `"://"`. -/
def schemeSep : GoStr := [':', '/', '/']

/-- The error cases of `normalizeOrigin` (the Go code builds distinct
`fmt.Errorf` messages; their interpolated data is dropped here). -/
inductive NormErr where
  | emptyInput     -- "domain cannot be empty"
  | parseFailure   -- "failed to parse domain %q: %w"
  | missingHost    -- "invalid domain %q: missing host"
deriving DecidableEq

/-- The scheme-prepending step of `normalizeOrigin`: prepend
`"https://"` when the trimmed input has no scheme separator. -/
def withDefaultScheme (trimmed : GoStr) : GoStr :=
  if !goContainsStr trimmed schemeSep then defaultScheme ++ schemeSep ++ trimmed
  else trimmed

/-- `normalizeOrigin` (src/unnamed/part_001 lines 17-45): canonicalize a
user-supplied URL or domain into `"<scheme>://<host>"`. -/
def normalizeOrigin (input : GoStr) : Except NormErr GoStr :=
  let trimmed := goTrimSpace input
  if trimmed = [] then .error .emptyInput
  else
    let trimmed := withDefaultScheme trimmed
    match urlParse trimmed with
    | none => .error .parseFailure
    | some parsed =>
      let host := hostnameG parsed
      if host = [] then .error .missingHost
      else
        let scheme := goToLower parsed.scheme
        let scheme := if scheme = [] then defaultScheme else scheme
        let host := goTrimSuffix (goToLower host) ['.']
        .ok (scheme ++ schemeSep ++ host)

/-- The fallback comparison key of `domainsEqual`:
`strings.TrimRight(strings.ToLower(strings.TrimSpace(x)), "/")`. -/
def fallbackKey (x : GoStr) : GoStr :=
  goTrimRightSlash (goToLower (goTrimSpace x))

/-- `domainsEqual` (src/unnamed/part_001 lines 50-61): compare two domain
strings by normalizing them, falling back to a case-insensitive,
trailing-slash-stripped comparison when either normalization fails. -/
def domainsEqual (a b : GoStr) : Bool :=
  match normalizeOrigin a, normalizeOrigin b with
  | .ok na, .ok nb => na = nb
  | _, _ => fallbackKey a = fallbackKey b

/-! ### Identity classifier (`looksLikeEmail` and friends) -/

/-- `looksLikeEmail` (src/unnamed/part_002 lines 94-96):
`strings.Count(input, "@") == 1 && !strings.ContainsAny(input, " \t")`. -/
def looksLikeEmail (input : GoStr) : Bool :=
  goCountChar input '@' = 1 && !goContainsAnyOf input [' ', '\t']

/-! ### Alias records, state priority, selector -/

/-- `AliasState` is an open string type in Go (`type AliasState string`). -/
abbrev AliasState := GoStr

/-- `AliasPending = "pending"`. -/
def AliasPending : AliasState := ['p', 'e', 'n', 'd', 'i', 'n', 'g']
/-- `AliasEnabled = "enabled"`. -/
def AliasEnabled : AliasState := ['e', 'n', 'a', 'b', 'l', 'e', 'd']
/-- `AliasDisabled = "disabled"`. -/
def AliasDisabled : AliasState := ['d', 'i', 's', 'a', 'b', 'l', 'e', 'd']
/-- `AliasDeleted = "deleted"`. -/
def AliasDeleted : AliasState := ['d', 'e', 'l', 'e', 't', 'e', 'd']

/-- `MaskedEmailInfo` (src/client.go lines 124-129). The `Description` field
is read by src/main.go (`handleAliasList`, `handleDescriptionUpdate`,
`aliasMatchesSearch`); its declaration belongs to the repository's current
struct, whose file is not under src, so it is added here as the free-text
field the spec's `AliasRecord.description` describes. -/
structure MaskedEmailInfo where
  Email : GoStr
  ForDomain : GoStr
  Description : GoStr
  State : AliasState
  ID : GoStr
deriving DecidableEq

/-- The `statePriority` map (src/main.go lines 97-102), as a lookup:
`none` models a key absent from the map. -/
def statePriority (s : AliasState) : Option Nat :=
  if s = AliasEnabled then some 0
  else if s = AliasPending then some 1
  else if s = AliasDisabled then some 2
  else if s = AliasDeleted then some 3
  else none

/-- `math.MaxInt` on a 64-bit build. -/
def goMaxInt : Nat := 9223372036854775807

/-- `getStatePriority` (src/main.go lines 184-189): map lookup with
`math.MaxInt` for unknown states. -/
def getStatePriority (state : AliasState) : Nat :=
  match statePriority state with
  | some priority => priority
  | none => goMaxInt

/-- The scan loop of `selectPreferredAlias` (src/main.go lines 173-179):
`sel`/`selPr` mirror `selected`/`selectedPriority`. -/
def selectLoop (sel : MaskedEmailInfo) (selPr : Nat) :
    List MaskedEmailInfo → MaskedEmailInfo
  | [] => sel
  | a :: rest =>
    if getStatePriority a.State < selPr then
      selectLoop a (getStatePriority a.State) rest
    else
      selectLoop sel selPr rest

/-- `selectPreferredAlias` (src/main.go lines 157-182): pick the best
record by state priority; `nil` for an empty slice. The warning printed for
unknown states is a side channel (stderr) with no effect on the returned
value. -/
def selectPreferredAlias : List MaskedEmailInfo → Option MaskedEmailInfo
  | [] => none
  | a :: rest => some (selectLoop a (getStatePriority a.State) rest)

/-! ### Alias matchers -/

/-- Modelled from the spec: `hostFromOrigin` is called by
`aliasMatchesSubdomain` (src/main.go lines 535, 545) but its definition is
not under src. Per spec §4.3b it extracts "the bare host" from an
origin-like string best-effort; the model normalizes the string and takes
what follows the scheme separator, yielding the empty string when
normalization fails. -/
def hostFromOrigin (s : GoStr) : GoStr :=
  match normalizeOrigin s with
  | .ok o =>
    match goIndexStr o schemeSep with
    | some i => o.drop (i + 3)
    | none => []
  | .error _ => []

/-- Modelled from the spec: `isSubdomain` is called by
`aliasMatchesSubdomain` (src/main.go line 550) but its definition is not
under src. Per spec §4.3b the subdomain relation is symmetric: one host ends
with `"." + other`. -/
def isSubdomain (a b : GoStr) : Bool :=
  goEndsWith a ('.' :: b) || goEndsWith b ('.' :: a)

/-- Modelled from the spec: `aliasMatchesDomain` is called by
`filterAliasesForList` (src/main.go line 478) and exercised by
`TestAliasMatchesDomain`, but its definition is not under src. Per spec
§4.3a: identity-equality on `forDomain`, with the `description` fallback
only when `forDomain` is blank. -/
def aliasMatchesDomain (al : MaskedEmailInfo) (targetDomain : GoStr) : Bool :=
  domainsEqual al.ForDomain targetDomain ||
    (goTrimSpace al.ForDomain = [] && domainsEqual al.Description targetDomain)

/-- `aliasMatchesSubdomain` (src/main.go lines 534-551). -/
def aliasMatchesSubdomain (al : MaskedEmailInfo) (targetDomain : GoStr) : Bool :=
  let targetHost := hostFromOrigin targetDomain
  if targetHost = [] then false
  else
    let candidate := al.ForDomain
    let candidate := if goTrimSpace candidate = [] then al.Description else candidate
    let aliasHost := hostFromOrigin candidate
    if aliasHost = [] then false
    else isSubdomain aliasHost targetHost

/-- `aliasMatchesSearch` (src/main.go lines 511-532): case-insensitive
substring search of each non-blank needle against the four lower-cased
fields. -/
def aliasMatchesSearch (al : MaskedEmailInfo) (needles : List GoStr) : Bool :=
  let fields := [goToLower al.Email, goToLower al.Description,
                 goToLower al.ForDomain, goToLower al.ID]
  needles.any fun needle =>
    let needle := goTrimSpace needle
    if needle = [] then false
    else fields.any fun field => field ≠ [] && goContainsStr field needle

/-! ### Listing partition (`filterAliasesForList`) -/

/-- The loop of `filterAliasesForList` (src/main.go lines 473-506). `seen`
models the `map[string]struct{}` of already-recorded ids (order is
irrelevant, membership is all the map supports); the two result lists are
built front-first, matching the loop's order of `append`s. -/
def filterLoop (normalizedDomain needleDomain needleSearch : GoStr)
    (seen : List GoStr) :
    List MaskedEmailInfo → List MaskedEmailInfo × List MaskedEmailInfo
  | [] => ([], [])
  | al :: rest =>
    if al.State = AliasDeleted then
      filterLoop normalizedDomain needleDomain needleSearch seen rest
    else if aliasMatchesDomain al normalizedDomain then
      let seen' := if al.ID ≠ [] then al.ID :: seen else seen
      let next := filterLoop normalizedDomain needleDomain needleSearch seen' rest
      (al :: next.1, next.2)
    else if aliasMatchesSubdomain al normalizedDomain then
      if al.ID ≠ [] && seen.contains al.ID then
        filterLoop normalizedDomain needleDomain needleSearch seen rest
      else
        let seen' := if al.ID ≠ [] then al.ID :: seen else seen
        let next := filterLoop normalizedDomain needleDomain needleSearch seen' rest
        (next.1, al :: next.2)
    else if aliasMatchesSearch al [needleDomain, needleSearch] then
      if al.ID ≠ [] && seen.contains al.ID then
        filterLoop normalizedDomain needleDomain needleSearch seen rest
      else
        let seen' := if al.ID ≠ [] then al.ID :: seen else seen
        let next := filterLoop normalizedDomain needleDomain needleSearch seen' rest
        (next.1, al :: next.2)
    else
      filterLoop normalizedDomain needleDomain needleSearch seen rest

/-- `filterAliasesForList` (src/main.go lines 468-509): split aliases into
primary (domain matches) and related (subdomain or search matches). -/
def filterAliasesForList (aliases : List MaskedEmailInfo)
    (normalizedDomain searchInput : GoStr) :
    List MaskedEmailInfo × List MaskedEmailInfo :=
  let needleDomain := goToLower (goTrimSpace normalizedDomain)
  let needleSearch := goToLower (goTrimSpace searchInput)
  filterLoop normalizedDomain needleDomain needleSearch [] aliases

/-!
### RPC envelope layer (src/client.go)

A `json.RawMessage` inside an already-unmarshalled `MaskedEmailResponse` is
a syntactically valid JSON document, so raw messages are modelled as parsed
JSON trees (`Json`). JSON numbers are abstracted to integers — no property
below depends on numeric payloads.
-/

/-- Parsed JSON value. -/
inductive Json where
  | null
  | bool (b : Bool)
  | num (n : Int)
  | str (s : GoStr)
  | arr (elems : List Json)
  | obj (fields : List (GoStr × Json))

/-- `json.Unmarshal(raw, &s)` for `s : string`: succeeds on a JSON string,
and on `null` (which leaves the fresh variable at its zero value `""`). -/
def unmarshalString : Json → Option GoStr
  | .str s => some s
  | .null => some []
  | _ => none

/-- Look up a field of a JSON object; as in Go's decoder, a later duplicate
key overwrites an earlier one (exact-case match; Go additionally accepts a
case-insensitive match, which no input below exercises). -/
def lookupField (fields : List (GoStr × Json)) (key : GoStr) : Option Json :=
  match fields.reverse.find? (fun f => f.1 = key) with
  | some f => some f.2
  | none => none

/-- The literal `"type"`. -/
def typeKey : GoStr := ['t', 'y', 'p', 'e']
/-- The literal `"message"`. -/
def messageKey : GoStr := ['m', 'e', 's', 's', 'a', 'g', 'e']

/-- `json.Unmarshal` into one `string` field of `JMAPError`: an absent field
or a `null` keeps the zero value; a non-string value is a type error. -/
def unmarshalStrField (fields : List (GoStr × Json)) (key : GoStr) :
    Option GoStr :=
  match lookupField fields key with
  | none => some []
  | some .null => some []
  | some (.str s) => some s
  | some _ => none

/-- `json.Unmarshal(raw, &jmapError)` for `JMAPError{Type, Message string}`:
an object (unknown fields ignored) or `null`. -/
def unmarshalJMAPError : Json → Option (GoStr × GoStr)
  | .null => some ([], [])
  | .obj fields => do
    let t ← unmarshalStrField fields typeKey
    let m ← unmarshalStrField fields messageKey
    pure (t, m)
  | _ => none

/-- `MaskedEmailResponse` (src/client.go lines 103-106). -/
structure MaskedEmailResponse where
  MethodResponses : List (List Json)
  MethodErrors : List Json

/-- The distinct `fmt.Errorf` results of `validateJMAPResponse` and
`validateMethodResponse`, with their interpolated data. -/
inductive ValidateErr where
  | methodErrors (errs : List Json)          -- "JMAP method errors in response: %v"
  | emptyResponses                           -- "empty MethodResponses array in JMAP response"
  | emptyEntry (i : Nat)                     -- "empty method response at index %d"
  | badMethodName (i : Nat)                  -- "failed to unmarshal method name at index %d"
  | jmapError (type message : GoStr)         -- "JMAP error: %s - %s"
  | jmapErrorRaw (method : GoStr) (raw : Json) -- "JMAP error in method '%s': %s"
  | jmapErrorBare (method : GoStr)           -- "JMAP error in method '%s'"
  | malformedEntry (i got : Nat)             -- "invalid method response structure at index %d: ..."
  | emptyForIndex                            -- "invalid response structure: MethodResponses is empty"
  | indexOutOfRange (index count : Nat)      -- "... method response index %d out of range (have %d responses)"
  | tooFewElements (index got want : Nat)    -- "... has %d elements, expected at least %d"

/-- `jmapErrorSuffixLen = 6`, the length of `"/error"`. -/
def jmapErrorSuffixLen : Nat := 6

/-- The literal `"/error"`. -/
def errorSuffix : GoStr := ['/', 'e', 'r', 'r', 'o', 'r']

/-- The per-entry loop of `validateJMAPResponse` (src/client.go lines
278-307); `i` is the running index (used only inside error values). -/
def checkEntries (i : Nat) : List (List Json) → Except ValidateErr Unit
  | [] => .ok ()
  | entry :: rest =>
    match entry with
    | [] => .error (.emptyEntry i)
    | e0 :: etail =>
      match unmarshalString e0 with
      | none => .error (.badMethodName i)
      | some methodName =>
        if methodName.length > jmapErrorSuffixLen &&
            goEndsWith methodName errorSuffix then
          match etail with
          | payload :: _ =>
            match unmarshalJMAPError payload with
            | some (t, m) => .error (.jmapError t m)
            | none => .error (.jmapErrorRaw methodName payload)
          | [] => .error (.jmapErrorBare methodName)
        else if entry.length < 2 then
          .error (.malformedEntry i entry.length)
        else checkEntries (i + 1) rest

/-- `validateJMAPResponse` (src/client.go lines 266-310). -/
def validateJMAPResponse (response : MaskedEmailResponse) :
    Except ValidateErr Unit :=
  if response.MethodErrors.length > 0 then
    .error (.methodErrors response.MethodErrors)
  else if response.MethodResponses.length = 0 then
    .error .emptyResponses
  else checkEntries 0 response.MethodResponses

/-- `validateMethodResponse` (src/client.go lines 315-326). The Go `index`
is an `int`; every caller passes the literal `0`, and the model uses `Nat`
(for a negative index the Go code would reach the positional access and
panic, a path no caller exercises). -/
def validateMethodResponse (response : MaskedEmailResponse)
    (index minElements : Nat) : Except ValidateErr Unit :=
  if response.MethodResponses.length = 0 then
    .error .emptyForIndex
  else if index ≥ response.MethodResponses.length then
    .error (.indexOutOfRange index response.MethodResponses.length)
  else if (response.MethodResponses.getD index []).length < minElements then
    .error (.tooFewElements index (response.MethodResponses.getD index []).length
              minElements)
  else .ok ()

/-- `methodCall` (src/client.go lines 132-136). `arguments` and `clientID`
model the `interface{}` values as the outcome of `json.Marshal` on them:
`.ok j` a serializable value with JSON form `j`, `.error ()` a value
`json.Marshal` rejects (e.g. a channel). A method name (a Go string) always
serializes. -/
structure methodCall where
  name : GoStr
  arguments : Except Unit Json
  clientID : Except Unit Json

/-- `MaskedEmailRequest` (src/client.go lines 98-101). -/
structure MaskedEmailRequest where
  Using : List GoStr
  MethodCalls : List (List Json)

/-- The literal `"urn:ietf:params:jmap:core"`. -/
def coreCapability : GoStr :=
  ['u', 'r', 'n', ':', 'i', 'e', 't', 'f', ':', 'p', 'a', 'r', 'a', 'm', 's',
   ':', 'j', 'm', 'a', 'p', ':', 'c', 'o', 'r', 'e']

/-- The literal `"https://www.fastmail.com/dev/maskedemail"`. -/
def maskedEmailCapability : GoStr :=
  ['h', 't', 't', 'p', 's', ':', '/', '/', 'w', 'w', 'w', '.', 'f', 'a', 's',
   't', 'm', 'a', 'i', 'l', '.', 'c', 'o', 'm', '/', 'd', 'e', 'v', '/',
   'm', 'a', 's', 'k', 'e', 'd', 'e', 'm', 'a', 'i', 'l']

/-- The serialization loop of `buildRequest` (src/client.go lines 139-156):
marshal name, arguments and client id of each call in order, stopping at the
first marshalling failure. -/
def buildCalls : List methodCall → Except Unit (List (List Json))
  | [] => .ok []
  | call :: rest => do
    let args ← call.arguments
    let clientID ← call.clientID
    let restCalls ← buildCalls rest
    pure ([Json.str call.name, args, clientID] :: restCalls)

/-- `buildRequest` (src/client.go lines 138-162): fixed two-entry capability
list plus the serialized calls in order. (The `fc` receiver is unused by the
Go method.) -/
def buildRequest (calls : List methodCall) : Except Unit MaskedEmailRequest := do
  let methodCalls ← buildCalls calls
  pure ⟨[coreCapability, maskedEmailCapability], methodCalls⟩

/-! ## Concrete fixtures (inputs of the repository's tests and of the
counterexamples below, spelled as character lists) -/

/-- `"mystery"`, the unknown state of `TestSelectPreferredAliasUnknownState`. -/
def mysteryState : AliasState := ['m', 'y', 's', 't', 'e', 'r', 'y']

/-- `{Email: "unknown@example.com", State: "mystery"}`. -/
def recUnknown : MaskedEmailInfo :=
  ⟨['u', 'n', 'k', 'n', 'o', 'w', 'n', '@', 'e', 'x', 'a', 'm', 'p', 'l', 'e',
    '.', 'c', 'o', 'm'], [], [], mysteryState, []⟩

/-- `{Email: "enabled@example.com", State: "enabled"}`. -/
def recEnabled : MaskedEmailInfo :=
  ⟨['e', 'n', 'a', 'b', 'l', 'e', 'd', '@', 'e', 'x', 'a', 'm', 'p', 'l', 'e',
    '.', 'c', 'o', 'm'], [], [], AliasEnabled, []⟩

/-! ## General lemmas about the Go string helpers -/

theorem goDropWhile_eq_self (p : Char → Bool) (s : GoStr)
    (h : ∀ c, s.head? = some c → p c = false) : goDropWhile p s = s := by
  cases s with
  | nil => rfl
  | cons c rest => simp [goDropWhile, h c rfl]

theorem goDropWhile_head?_false (p : Char → Bool) :
    ∀ s c, (goDropWhile p s).head? = some c → p c = false := by
  intro s
  induction s with
  | nil => intro c h; simp [goDropWhile] at h
  | cons d rest ih =>
    intro c h
    by_cases hd : p d
    · exact ih c (by simpa [goDropWhile, hd] using h)
    · have hself : goDropWhile p (d :: rest) = d :: rest :=
        goDropWhile_eq_self p (d :: rest) (fun e he => by
          rw [List.head?_cons, Option.some.injEq] at he
          rw [← he]; exact Bool.eq_false_iff.mpr hd)
      rw [hself, List.head?_cons, Option.some.injEq] at h
      rw [← h]; exact Bool.eq_false_iff.mpr hd

theorem goDropWhile_sublist_suffix (p : Char → Bool) :
    ∀ s : GoStr, ∃ pre, s = pre ++ goDropWhile p s := by
  intro s
  induction s with
  | nil => exact ⟨[], rfl⟩
  | cons d rest ih =>
    by_cases hd : p d
    · obtain ⟨pre, hpre⟩ := ih
      exact ⟨d :: pre, by simp [goDropWhile, hd, ← hpre]⟩
    · exact ⟨[], by simp [goDropWhile, hd]⟩

theorem goTrimSpace_head?_not_space (s : GoStr) :
    ∀ c, (goTrimSpace s).head? = some c → goIsSpace c = false := by
  intro c h
  exact goDropWhile_head?_false goIsSpace _ c h

theorem goTrimSpace_getLast?_not_space (s : GoStr) :
    ∀ c, (goTrimSpace s).getLast? = some c → goIsSpace c = false := by
  intro c h
  unfold goTrimSpace at h
  set m := (goDropWhile goIsSpace s.reverse).reverse with hm
  obtain ⟨pre, hpre⟩ := goDropWhile_sublist_suffix goIsSpace m
  have hne : goDropWhile goIsSpace m ≠ [] := by
    intro hnil; rw [hnil] at h; simp at h
  have hlast : m.getLast? = some c := by
    rw [hpre, List.getLast?_append_of_ne_nil _ hne]; exact h
  have : (goDropWhile goIsSpace s.reverse).head? = some c := by
    rw [hm, List.getLast?_reverse] at hlast; exact hlast
  exact goDropWhile_head?_false goIsSpace _ c this

theorem goTrimSpace_eq_self (s : GoStr)
    (h1 : ∀ c, s.head? = some c → goIsSpace c = false)
    (h2 : ∀ c, s.getLast? = some c → goIsSpace c = false) :
    goTrimSpace s = s := by
  unfold goTrimSpace
  have hrev : goDropWhile goIsSpace s.reverse = s.reverse := by
    refine goDropWhile_eq_self goIsSpace s.reverse (fun c hc => ?_)
    exact h2 c (by rwa [List.head?_reverse] at hc)
  rw [hrev, List.reverse_reverse]
  exact goDropWhile_eq_self goIsSpace s h1

theorem goTrimSpace_idem (s : GoStr) :
    goTrimSpace (goTrimSpace s) = goTrimSpace s :=
  goTrimSpace_eq_self _ (goTrimSpace_head?_not_space s)
    (goTrimSpace_getLast?_not_space s)

theorem goStartsWith_append (pat suf : GoStr) :
    goStartsWith (pat ++ suf) pat = true := by
  induction pat with
  | nil => cases suf <;> rfl
  | cons c rest ih => simp [goStartsWith, ih]

theorem goIndexStr_self_append (pat suf : GoStr) :
    goIndexStr (pat ++ suf) pat = some 0 := by
  have hsw : goStartsWith (pat ++ suf) pat = true := goStartsWith_append pat suf
  cases hp : pat ++ suf with
  | nil =>
    rw [hp] at hsw
    simp only [goIndexStr, hsw, if_true]
  | cons c rest =>
    rw [hp] at hsw
    simp only [goIndexStr, hsw, if_true]

theorem goContainsStr_of_append (pre pat suf : GoStr) :
    goContainsStr (pre ++ (pat ++ suf)) pat = true := by
  induction pre with
  | nil =>
    rw [List.nil_append]
    unfold goContainsStr
    rw [goIndexStr_self_append]
    rfl
  | cons c rest ih =>
    unfold goContainsStr at ih ⊢
    rw [List.cons_append]
    simp only [goIndexStr]
    by_cases h : goStartsWith (c :: (rest ++ (pat ++ suf))) pat = true
    · simp [h]
    · rw [if_neg h]
      cases hidx : goIndexStr (rest ++ (pat ++ suf)) pat with
      | none => rw [hidx] at ih; simp at ih
      | some i => simp

theorem goIndexChar_eq_none (t : Char) :
    ∀ s : GoStr, (∀ c ∈ s, c ≠ t) → goIndexChar s t = none := by
  intro s
  induction s with
  | nil => intro _; rfl
  | cons c rest ih =>
    intro h
    simp [goIndexChar, h c (by simp), ih (fun d hd => h d (by simp [hd]))]

theorem goLastIndexChar_eq_none (t : Char) (s : GoStr)
    (h : ∀ c ∈ s, c ≠ t) : goLastIndexChar s t = none := by
  unfold goLastIndexChar
  rw [goIndexChar_eq_none t s.reverse (fun c hc => h c (List.mem_reverse.mp hc))]
  rfl

theorem urlSplit_no_sep (s : GoStr) (sep : Char) (cutc : Bool)
    (h : ∀ c ∈ s, c ≠ sep) : urlSplit s sep cutc = (s, []) := by
  unfold urlSplit
  rw [goIndexChar_eq_none sep s h]

theorem goEndsWith_single (s : GoStr) (c : Char) :
    goEndsWith s [c] = true ↔ s.getLast? = some c := by
  unfold goEndsWith
  rw [← List.head?_reverse]
  cases s.reverse with
  | nil => simp [goStartsWith]
  | cons d rest => simp [goStartsWith]

/-! ## C1: the alias selector -/

/-- Split characterization of the selection loop: the result is an element of
`sel :: rest`, every element strictly before it has strictly greater priority
(leftmost wins on ties), and every element after it has priority at least as
large (it is a minimum). -/
theorem selectLoop_split :
    ∀ (rest : List MaskedEmailInfo) (sel : MaskedEmailInfo),
      ∃ l₁ r l₂,
        sel :: rest = l₁ ++ r :: l₂ ∧
        selectLoop sel (getStatePriority sel.State) rest = r ∧
        (∀ x ∈ l₁, getStatePriority r.State < getStatePriority x.State) ∧
        (∀ x ∈ l₂, getStatePriority r.State ≤ getStatePriority x.State) := by
  intro rest
  induction rest with
  | nil =>
    intro sel
    exact ⟨[], sel, [], rfl, rfl, by simp, by simp⟩
  | cons a rest ih =>
    intro sel
    by_cases h : getStatePriority a.State < getStatePriority sel.State
    · obtain ⟨l₁, r, l₂, heq, hres, hlt, hle⟩ := ih a
      cases l₁ with
      | nil =>
        rw [List.nil_append] at heq
        injection heq with h1 h2
        subst h2
        refine ⟨[sel], r, rest, by rw [h1]; simp, ?_, ?_, hle⟩
        · rw [selectLoop, if_pos h]; exact hres
        · intro x hx
          rw [List.mem_singleton] at hx
          subst hx
          rw [← h1]
          exact h
      | cons b l₁' =>
        rw [List.cons_append] at heq
        injection heq with h1 h2
        subst h2
        refine ⟨sel :: a :: l₁', r, l₂, by simp, ?_, ?_, hle⟩
        · rw [selectLoop, if_pos h]; exact hres
        · intro x hx
          have hb := hlt b (List.mem_cons_self _ _)
          rw [← h1] at hb
          rcases List.mem_cons.mp hx with rfl | hx'
          · exact lt_trans hb h
          · rcases List.mem_cons.mp hx' with rfl | hx''
            · exact hb
            · exact hlt x (List.mem_cons_of_mem _ hx'')
    · obtain ⟨l₁, r, l₂, heq, hres, hlt, hle⟩ := ih sel
      cases l₁ with
      | nil =>
        rw [List.nil_append] at heq
        injection heq with h1 h2
        subst h2
        refine ⟨[], r, a :: rest, by rw [h1]; simp, ?_, by simp, ?_⟩
        · rw [selectLoop, if_neg h]; exact hres
        · intro x hx
          rcases List.mem_cons.mp hx with rfl | hx'
          · rw [← h1]; exact not_lt.mp h
          · exact hle x hx'
      | cons b l₁' =>
        rw [List.cons_append] at heq
        injection heq with h1 h2
        subst h2
        refine ⟨sel :: a :: l₁', r, l₂, by simp, ?_, ?_, hle⟩
        · rw [selectLoop, if_neg h]; exact hres
        · intro x hx
          have hb := hlt b (List.mem_cons_self _ _)
          rw [← h1] at hb
          rcases List.mem_cons.mp hx with rfl | hx'
          · exact hb
          · rcases List.mem_cons.mp hx' with rfl | hx''
            · exact lt_of_lt_of_le hb (not_lt.mp h)
            · exact hlt x (List.mem_cons_of_mem _ hx'')

/-- C1: `selectPreferred` (`selectPreferredAlias`) returns `none` on the
empty list; on a non-empty list it returns the leftmost record of minimum
priority under the fixed table enabled(0) < pending(1) < disabled(2) <
deleted(3): everything strictly before the returned record has strictly
greater priority and everything after it has priority at least as large.
Records in unknown states are assigned the worst priority `math.MaxInt`
(which bounds every priority), participate in the comparison like any other
record, and the selector is a total function (no crash). -/
theorem C1_selectPreferredAlias_correct :
    selectPreferredAlias [] = none ∧
    (∀ l : List MaskedEmailInfo, l ≠ [] →
      ∃ l₁ r l₂,
        l = l₁ ++ r :: l₂ ∧
        selectPreferredAlias l = some r ∧
        (∀ x ∈ l₁, getStatePriority r.State < getStatePriority x.State) ∧
        (∀ x ∈ l₂, getStatePriority r.State ≤ getStatePriority x.State)) ∧
    (getStatePriority AliasEnabled = 0 ∧ getStatePriority AliasPending = 1 ∧
      getStatePriority AliasDisabled = 2 ∧ getStatePriority AliasDeleted = 3) ∧
    (∀ s : AliasState, s ≠ AliasEnabled → s ≠ AliasPending →
      s ≠ AliasDisabled → s ≠ AliasDeleted → getStatePriority s = goMaxInt) ∧
    (∀ s : AliasState, getStatePriority s ≤ goMaxInt) := by
  refine ⟨rfl, ?_, by decide, ?_, ?_⟩
  · intro l hl
    cases l with
    | nil => exact absurd rfl hl
    | cons a rest =>
      obtain ⟨l₁, r, l₂, heq, hres, hlt, hle⟩ := selectLoop_split rest a
      exact ⟨l₁, r, l₂, heq, by simpa [selectPreferredAlias] using hres, hlt, hle⟩
  · intro s h1 h2 h3 h4
    simp [getStatePriority, statePriority, h1, h2, h3, h4]
  · intro s
    unfold getStatePriority
    cases heq : statePriority s with
    | none => exact le_refl _
    | some p =>
      show p ≤ goMaxInt
      unfold statePriority at heq
      unfold goMaxInt
      split_ifs at heq <;> (injection heq with h; omega)

/-- Witness for C1, on the input of `TestSelectPreferredAliasUnknownState`:
the enabled record is selected past the unknown-state record, and the
unknown state `"mystery"` receives `math.MaxInt`. -/
theorem C1_selectPreferredAlias_witness :
    (∃ l₁ r l₂,
      [recUnknown, recEnabled] = l₁ ++ r :: l₂ ∧
      selectPreferredAlias [recUnknown, recEnabled] = some r ∧
      (∀ x ∈ l₁, getStatePriority r.State < getStatePriority x.State) ∧
      (∀ x ∈ l₂, getStatePriority r.State ≤ getStatePriority x.State)) ∧
    getStatePriority mysteryState = goMaxInt ∧
    selectPreferredAlias [recUnknown, recEnabled] = some recEnabled :=
  ⟨C1_selectPreferredAlias_correct.2.1 [recUnknown, recEnabled] (by decide),
   C1_selectPreferredAlias_correct.2.2.2.1 mysteryState (by decide) (by decide)
     (by decide) (by decide),
   by decide⟩

/-! ## C9: the email-shape heuristic -/

/-- C9 counterexample: `"a@b\nc"` is already trimmed and contains the white
space character `'\n'`, yet `looksLikeEmail` accepts it — the code checks
only for `' '` and `'\t'`, not for all white space as the claim states. -/
theorem C9_looksLikeEmail_counterexample :
    goTrimSpace ['a', '@', 'b', '\n', 'c'] = ['a', '@', 'b', '\n', 'c'] ∧
    looksLikeEmail ['a', '@', 'b', '\n', 'c'] = true ∧
    (['a', '@', 'b', '\n', 'c'] : GoStr).any goIsSpace = true := by
  decide

/-- C9 (amended): for every trimmed string, `looksLikeEmail` returns true
iff the string contains exactly one `'@'` and no space or tab character
(other white space, such as `'\n'`, is not rejected). -/
theorem goCountChar_eq_count (s : GoStr) (t : Char) :
    goCountChar s t = s.count t := by
  unfold goCountChar
  induction s with
  | nil => rfl
  | cons c rest ih =>
    rw [List.countP_cons, List.count_cons, ih]
    by_cases h : c = t
    · simp [h]
    · simp [h]

theorem C9_looksLikeEmail_amended (s : GoStr) (hs : goTrimSpace s = s) :
    looksLikeEmail s = true ↔
      s.count '@' = 1 ∧ ∀ c ∈ s, c ≠ ' ' ∧ c ≠ '\t' := by
  clear hs
  unfold looksLikeEmail goContainsAnyOf
  rw [Bool.and_eq_true, Bool.not_eq_true', decide_eq_true_iff,
    goCountChar_eq_count, List.any_eq_false]
  constructor
  · rintro ⟨h1, h2⟩
    refine ⟨h1, fun c hc => ?_⟩
    have h3 := h2 c hc
    simp only [List.contains_cons, List.contains_nil, Bool.or_false,
      Bool.or_eq_true, beq_iff_eq, not_or] at h3
    exact h3
  · rintro ⟨h1, h2⟩
    refine ⟨h1, fun c hc => ?_⟩
    simp only [List.contains_cons, List.contains_nil, Bool.or_false,
      Bool.or_eq_true, beq_iff_eq, not_or]
    exact h2 c hc

/-- Witness for C9 on the test input `"user@example.com"`. -/
theorem C9_looksLikeEmail_witness :
    looksLikeEmail ['u', 's', 'e', 'r', '@', 'e', 'x', 'a', 'm', 'p', 'l',
        'e', '.', 'c', 'o', 'm'] = true ↔
      (['u', 's', 'e', 'r', '@', 'e', 'x', 'a', 'm', 'p', 'l', 'e', '.', 'c',
        'o', 'm'] : GoStr).count '@' = 1 ∧
      ∀ c ∈ (['u', 's', 'e', 'r', '@', 'e', 'x', 'a', 'm', 'p', 'l', 'e', '.',
        'c', 'o', 'm'] : GoStr), c ≠ ' ' ∧ c ≠ '\t' :=
  C9_looksLikeEmail_amended _ (by decide)

/-! ## C8: the domain matcher (spec-modelled) -/

/-- `"https://example.com"`. -/
def exOrigin : GoStr := ['h', 't', 't', 'p', 's', ':', '/', '/', 'e', 'x', 'a', 'm', 'p', 'l', 'e', '.', 'c', 'o', 'm']
/-- `"https://other.com"`. -/
def otherOrigin : GoStr := ['h', 't', 't', 'p', 's', ':', '/', '/', 'o', 't', 'h', 'e', 'r', '.', 'c', 'o', 'm']
/-- `"https://Example.com/signup"`. -/
def signupOrigin : GoStr := ['h', 't', 't', 'p', 's', ':', '/', '/', 'E', 'x', 'a', 'm', 'p', 'l', 'e', '.', 'c', 'o', 'm', '/', 's', 'i', 'g', 'n', 'u', 'p']

/-- C8: `matchesDomain` (`aliasMatchesDomain`, modelled from the spec since
its definition is not under src) returns true for a record and target iff
the record's `forDomain` is identity-equal to the target, or — only when
`forDomain` is blank — the record's `description` is identity-equal to the
target; when `forDomain` is non-blank the description fallback never
applies, even on a mismatching `forDomain`. -/
theorem C8_aliasMatchesDomain_correct :
    (∀ (rec : MaskedEmailInfo) (target : GoStr),
      aliasMatchesDomain rec target = true ↔
        (domainsEqual rec.ForDomain target = true ∨
          (goTrimSpace rec.ForDomain = [] ∧
            domainsEqual rec.Description target = true))) ∧
    (∀ (rec : MaskedEmailInfo) (target : GoStr),
      goTrimSpace rec.ForDomain ≠ [] →
      aliasMatchesDomain rec target = domainsEqual rec.ForDomain target) := by
  constructor
  · intro rec target
    unfold aliasMatchesDomain
    rw [Bool.or_eq_true, Bool.and_eq_true, decide_eq_true_iff]
  · intro rec target h
    unfold aliasMatchesDomain
    simp [h]

/-- Witness for C8, on the cases of `TestAliasMatchesDomain`: a non-blank
`forDomain` ("https://Example.com/signup", matching up to case/path) decides
alone, and the description fallback works for blank `forDomain` but not for
a different domain. -/
theorem C8_aliasMatchesDomain_witness :
    aliasMatchesDomain ⟨[], signupOrigin, [], [], []⟩ exOrigin =
      domainsEqual signupOrigin exOrigin ∧
    aliasMatchesDomain ⟨[], signupOrigin, [], [], []⟩ exOrigin = true ∧
    aliasMatchesDomain ⟨[], exOrigin, [], [], []⟩ exOrigin = true ∧
    aliasMatchesDomain ⟨[], otherOrigin, [], [], []⟩ exOrigin = false ∧
    aliasMatchesDomain ⟨[], [], exOrigin, [], []⟩ exOrigin = true ∧
    aliasMatchesDomain ⟨[], [], otherOrigin, [], []⟩ exOrigin = false :=
  ⟨C8_aliasMatchesDomain_correct.2 ⟨[], signupOrigin, [], [], []⟩ exOrigin
      (by decide),
   by decide, by decide, by decide, by decide, by decide⟩

/-! ## C4: domainsEqual -/

/-- `"HTTPS://Example.COM"`. -/
def upperOrigin : GoStr := ['H', 'T', 'T', 'P', 'S', ':', '/', '/', 'E', 'x', 'a', 'm', 'p', 'l', 'e', '.', 'C', 'O', 'M']
/-- `"https://example.com/"`. -/
def slashOrigin : GoStr := ['h', 't', 't', 'p', 's', ':', '/', '/', 'e', 'x', 'a', 'm', 'p', 'l', 'e', '.', 'c', 'o', 'm', '/']
/-- `"https://example.com:443"`. -/
def portOrigin : GoStr := ['h', 't', 't', 'p', 's', ':', '/', '/', 'e', 'x', 'a', 'm', 'p', 'l', 'e', '.', 'c', 'o', 'm', ':', '4', '4', '3']
/-- `"https://one.example.com"`. -/
def oneOrigin : GoStr := ['h', 't', 't', 'p', 's', ':', '/', '/', 'o', 'n', 'e', '.', 'e', 'x', 'a', 'm', 'p', 'l', 'e', '.', 'c', 'o', 'm']
/-- `"https://two.example.com"`. -/
def twoOrigin : GoStr := ['h', 't', 't', 'p', 's', ':', '/', '/', 't', 'w', 'o', '.', 'e', 'x', 'a', 'm', 'p', 'l', 'e', '.', 'c', 'o', 'm']
/-- `"ftp://example.com"`. -/
def ftpOrigin : GoStr := ['f', 't', 'p', ':', '/', '/', 'e', 'x', 'a', 'm', 'p', 'l', 'e', '.', 'c', 'o', 'm']

/-- C4: `identitiesEqual` (`domainsEqual`) is a total function on all pairs
of strings (never throws); when both normalizations succeed it returns
equality of the normalized forms, when either fails it returns equality of
the case-insensitive, trailing-slash-stripped trimmed literals; and it
decides the four example pairs of the spec as stated. -/
theorem C4_domainsEqual_correct :
    (∀ a b na nb, normalizeOrigin a = .ok na → normalizeOrigin b = .ok nb →
      (domainsEqual a b = true ↔ na = nb)) ∧
    (∀ a b, ((∃ e, normalizeOrigin a = .error e) ∨
        (∃ e, normalizeOrigin b = .error e)) →
      (domainsEqual a b = true ↔ fallbackKey a = fallbackKey b)) ∧
    domainsEqual upperOrigin slashOrigin = true ∧
    domainsEqual portOrigin signupOrigin = true ∧
    domainsEqual oneOrigin twoOrigin = false ∧
    domainsEqual ftpOrigin exOrigin = false := by
  refine ⟨?_, ?_, by decide, by decide, by decide, by decide⟩
  · intro a b na nb ha hb
    unfold domainsEqual
    rw [ha, hb]
    simp
  · intro a b h
    unfold domainsEqual
    rcases h with ⟨e, he⟩ | ⟨e, he⟩
    · rw [he]
      cases normalizeOrigin b <;> simp
    · rw [he]
      cases normalizeOrigin a <;> simp

/-- `"   "` (three spaces), an input whose normalization fails. -/
def blankInput : GoStr := [' ', ' ', ' ']

/-- Witness for C4: the success branch on the first example pair and the
fallback branch on a pair whose left side fails normalization. -/
theorem C4_domainsEqual_witness :
    (domainsEqual upperOrigin slashOrigin = true ↔ exOrigin = exOrigin) ∧
    (domainsEqual blankInput [] = true ↔ fallbackKey blankInput = fallbackKey []) :=
  ⟨C4_domainsEqual_correct.1 upperOrigin slashOrigin exOrigin exOrigin rfl rfl,
   C4_domainsEqual_correct.2.1 blankInput []
      (Or.inl ⟨NormErr.emptyInput, rfl⟩)⟩

/-! ## C10: the envelope builder -/

/-- The JSON value a serializable `interface\x7b\x7d` marshals to (`Json.null` is
a placeholder on the unserializable branch, which the theorems rule out by
hypothesis). -/
def marshalled : Except Unit Json → Json
  | .ok j => j
  | .error _ => Json.null

theorem buildCalls_ok (calls : List methodCall)
    (h : ∀ c ∈ calls, (∃ j, c.arguments = .ok j) ∧ (∃ j, c.clientID = .ok j)) :
    buildCalls calls = .ok (calls.map (fun c =>
      [Json.str c.name, marshalled c.arguments, marshalled c.clientID])) := by
  induction calls with
  | nil => rfl
  | cons c rest ih =>
    obtain ⟨⟨ja, hja⟩, ⟨jc, hjc⟩⟩ := h c (List.mem_cons_self _ _)
    rw [List.map_cons]
    unfold buildCalls
    rw [hja, hjc, ih (fun d hd => h d (List.mem_cons_of_mem _ hd))]
    rfl

theorem buildCalls_ok_iff (calls : List methodCall) :
    (∃ out, buildCalls calls = .ok out) ↔
      ∀ c ∈ calls, (∃ j, c.arguments = .ok j) ∧ (∃ j, c.clientID = .ok j) := by
  induction calls with
  | nil => simp [buildCalls]
  | cons c rest ih =>
    constructor
    · rintro ⟨out, hout⟩
      unfold buildCalls at hout
      cases ha : c.arguments with
      | error e => rw [ha] at hout; exact Except.noConfusion hout
      | ok ja =>
        rw [ha] at hout
        cases hc : c.clientID with
        | error e => rw [hc] at hout; exact Except.noConfusion hout
        | ok jc =>
          rw [hc] at hout
          cases hr : buildCalls rest with
          | error e => rw [hr] at hout; exact Except.noConfusion hout
          | ok outRest =>
            intro d hd
            rcases List.mem_cons.mp hd with rfl | hd'
            · exact ⟨⟨ja, ha⟩, ⟨jc, hc⟩⟩
            · exact ih.mp ⟨outRest, hr⟩ d hd'
    · intro h
      exact ⟨_, buildCalls_ok (c :: rest) h⟩

/-- C10: `buildEnvelope` (`buildRequest`): for every ordered list of method
invocations whose parts all serialize, building succeeds, the capability
declaration is exactly the fixed two-entry list (JMAP core plus the
masked-email extension), and the call array is the input list, in order,
each call a 3-element array `[methodName, argumentsObject,
correlationToken]`; building fails exactly when some call has a part that
does not serialize. -/
theorem C10_buildRequest_correct :
    (∀ calls : List methodCall,
      (∀ c ∈ calls, (∃ j, c.arguments = .ok j) ∧ (∃ j, c.clientID = .ok j)) →
      buildRequest calls = .ok
        ⟨[coreCapability, maskedEmailCapability],
         calls.map (fun c =>
           [Json.str c.name, marshalled c.arguments, marshalled c.clientID])⟩) ∧
    (∀ calls : List methodCall,
      (∃ req, buildRequest calls = .ok req) ↔
        ∀ c ∈ calls, (∃ j, c.arguments = .ok j) ∧ (∃ j, c.clientID = .ok j)) := by
  constructor
  · intro calls h
    unfold buildRequest
    rw [buildCalls_ok calls h]
    rfl
  · intro calls
    unfold buildRequest
    rw [← buildCalls_ok_iff]
    constructor
    · rintro ⟨req, hreq⟩
      cases hb : buildCalls calls with
      | error e => rw [hb] at hreq; exact Except.noConfusion hreq
      | ok out => exact ⟨out, rfl⟩
    · rintro ⟨out, hout⟩
      rw [hout]
      exact ⟨_, rfl⟩

/-- `"MaskedEmail/get"`. -/
def methodGetName : GoStr := ['M', 'a', 's', 'k', 'e', 'd', 'E', 'm', 'a', 'i', 'l', '/', 'g', 'e', 't']
/-- `"MaskedEmail/set"`. -/
def methodSetName : GoStr := ['M', 'a', 's', 'k', 'e', 'd', 'E', 'm', 'a', 'i', 'l', '/', 's', 'e', 't']

/-- A serializable `MaskedEmail/get` call with `nil` client id. -/
def getCall : methodCall := ⟨methodGetName, .ok (Json.obj []), .ok Json.null⟩
/-- A serializable `MaskedEmail/set` call with `nil` client id. -/
def setCall : methodCall := ⟨methodSetName, .ok (Json.obj []), .ok Json.null⟩

/-- Witness for C10 on a concrete two-call batch: the envelope carries the
fixed capability pair and both calls, in order. -/
theorem C10_buildRequest_witness :
    buildRequest [getCall, setCall] = .ok
      ⟨[coreCapability, maskedEmailCapability],
       [[Json.str methodGetName, Json.obj [], Json.null],
        [Json.str methodSetName, Json.obj [], Json.null]]⟩ :=
  C10_buildRequest_correct.1 [getCall, setCall] (by
    intro c hc
    rcases List.mem_cons.mp hc with rfl | hc'
    · exact ⟨⟨Json.obj [], rfl⟩, ⟨Json.null, rfl⟩⟩
    · rcases List.mem_cons.mp hc' with rfl | hc''
      · exact ⟨⟨Json.obj [], rfl⟩, ⟨Json.null, rfl⟩⟩
      · cases hc'')

/-! ## C7: the specific-index accessor -/

/-- C7 counterexample: on a response with zero entries, index 0 is not below
the number of entries, but `validateMethodResponse` fails with the distinct
empty-responses error, not with the index-out-of-range error the claim
names. -/
theorem C7_validateMethodResponse_counterexample :
    validateMethodResponse ⟨[], []⟩ 0 2 = .error .emptyForIndex ∧
    ValidateErr.emptyForIndex ≠ ValidateErr.indexOutOfRange 0 0 :=
  ⟨rfl, fun h => ValidateErr.noConfusion h⟩

/-- C7 (amended): `expect` (`validateMethodResponse`) fails with a dedicated
empty-responses error when there are zero response entries; otherwise it
fails with an index-out-of-range error when the requested index is not below
the number of entries, and with a too-few-elements error when the entry at
that index has fewer than the required minimum of elements. It succeeds
exactly when the index is in bounds and the entry is long enough, so every
positional access up to the checked minimum after a successful check is in
bounds (never throws). -/
theorem C7_validateMethodResponse_amended (r : MaskedEmailResponse)
    (index minElements : Nat) :
    (validateMethodResponse r index minElements = .ok () ↔
      index < r.MethodResponses.length ∧
        minElements ≤ (r.MethodResponses.getD index []).length) ∧
    (r.MethodResponses.length = 0 →
      validateMethodResponse r index minElements = .error .emptyForIndex) ∧
    (r.MethodResponses.length ≠ 0 → r.MethodResponses.length ≤ index →
      validateMethodResponse r index minElements =
        .error (.indexOutOfRange index r.MethodResponses.length)) ∧
    (index < r.MethodResponses.length →
      (r.MethodResponses.getD index []).length < minElements →
      validateMethodResponse r index minElements =
        .error (.tooFewElements index
          (r.MethodResponses.getD index []).length minElements)) := by
  refine ⟨?_, ?_, ?_, ?_⟩
  · unfold validateMethodResponse
    split_ifs with h1 h2 h3
    · constructor
      · intro h; simp at h
      · rintro ⟨hlt, _⟩; omega
    · constructor
      · intro h; simp at h
      · rintro ⟨hlt, _⟩; omega
    · constructor
      · intro h; simp at h
      · rintro ⟨_, hge⟩; omega
    · exact ⟨fun _ => ⟨by omega, by omega⟩, fun _ => rfl⟩
  · intro h
    unfold validateMethodResponse
    rw [if_pos h]
  · intro h1 h2
    unfold validateMethodResponse
    rw [if_neg h1, if_pos (by omega)]
  · intro h1 h2
    unfold validateMethodResponse
    rw [if_neg (by omega), if_neg (by omega), if_pos h2]

/-- A well-formed single-entry response (a `MaskedEmail/get` result). -/
def okResponse : MaskedEmailResponse :=
  ⟨[[Json.str methodGetName, Json.obj []]], []⟩

/-- Witness for C7: on a well-formed single-entry response the check at
index 0 with minimum 2 succeeds, and the out-of-range and too-few cases
surface their dedicated errors. -/
theorem C7_validateMethodResponse_witness :
    (validateMethodResponse okResponse 0 2 = .ok () ↔
      0 < okResponse.MethodResponses.length ∧
        2 ≤ (okResponse.MethodResponses.getD 0 []).length) ∧
    validateMethodResponse okResponse 5 2 =
      .error (.indexOutOfRange 5 okResponse.MethodResponses.length) ∧
    validateMethodResponse okResponse 0 3 =
      .error (.tooFewElements 0 (okResponse.MethodResponses.getD 0 []).length 3) :=
  ⟨(C7_validateMethodResponse_amended okResponse 0 2).1,
   (C7_validateMethodResponse_amended okResponse 5 2).2.2.1
     (by decide) (by decide),
   (C7_validateMethodResponse_amended okResponse 0 3).2.2.2
     (by decide) (by decide)⟩

/-! ## C6: the batch-response validator -/

/-- A response entry passes `validateJMAPResponse`'s per-entry checks iff it
is non-empty, its first element unmarshals as a method name (a JSON string,
or `null` for the zero value), that name is not a method-error name (longer
than 6 characters and ending in `"/error"`), and the entry has at least two
elements. -/
def entryOK (entry : List Json) : Prop :=
  ∃ e0 etail name, entry = e0 :: etail ∧
    unmarshalString e0 = some name ∧
    ¬(name.length > jmapErrorSuffixLen ∧ goEndsWith name errorSuffix = true) ∧
    2 ≤ entry.length

theorem checkEntries_ok_iff (l : List (List Json)) :
    ∀ i, (checkEntries i l = .ok () ↔ ∀ entry ∈ l, entryOK entry) := by
  induction l with
  | nil => intro i; simp [checkEntries]
  | cons entry rest ih =>
    intro i
    cases entry with
    | nil =>
      simp only [checkEntries]
      constructor
      · intro h; simp at h
      · intro h
        obtain ⟨e0, etail, name, habs, -⟩ := h [] (List.mem_cons_self _ _)
        exact List.noConfusion habs
    | cons e0 etail =>
      simp only [checkEntries]
      cases hname : unmarshalString e0 with
      | none =>
        simp only []
        constructor
        · intro h; simp at h
        · intro h
          obtain ⟨e0', etail', name, heq, hn, -⟩ :=
            h (e0 :: etail) (List.mem_cons_self _ _)
          injection heq with he0 hetail
          rw [← he0, hname] at hn
          exact Option.noConfusion hn
      | some name =>
        simp only []
        by_cases hbad :
            (decide (name.length > jmapErrorSuffixLen) &&
              goEndsWith name errorSuffix) = true
        · have hbad' : name.length > jmapErrorSuffixLen ∧
              goEndsWith name errorSuffix = true := by
            rw [Bool.and_eq_true, decide_eq_true_iff] at hbad; exact hbad
          rw [if_pos hbad]
          constructor
          · intro h
            exfalso
            cases etail with
            | nil => simp only [] at h; simp at h
            | cons payload more =>
              simp only [] at h
              cases hj : unmarshalJMAPError payload with
              | none => rw [hj] at h; simp only [] at h; simp at h
              | some tm =>
                obtain ⟨t, m⟩ := tm
                rw [hj] at h; simp only [] at h; simp at h
          · intro h
            exfalso
            obtain ⟨e0', etail', name', heq, hn, hok, -⟩ :=
              h (e0 :: etail) (List.mem_cons_self _ _)
            injection heq with he0 hetail
            rw [← he0, hname] at hn
            injection hn with hn'
            rw [← hn'] at hok
            exact hok hbad'
        · have hbad' : ¬(name.length > jmapErrorSuffixLen ∧
              goEndsWith name errorSuffix = true) := by
            intro hc
            exact hbad (by rw [Bool.and_eq_true, decide_eq_true_iff]; exact hc)
          rw [if_neg hbad]
          by_cases hlen : (e0 :: etail : List Json).length < 2
          · rw [if_pos hlen]
            constructor
            · intro h; simp at h
            · intro h
              obtain ⟨e0', etail', name', heq, -, -, hge⟩ :=
                h (e0 :: etail) (List.mem_cons_self _ _)
              omega
          · rw [if_neg hlen]
            rw [ih (i + 1)]
            constructor
            · intro h entry hmem
              rcases List.mem_cons.mp hmem with rfl | hmem'
              · exact ⟨e0, etail, name, rfl, hname, hbad', by omega⟩
              · exact h entry hmem'
            · intro h entry hmem
              exact h entry (List.mem_cons_of_mem _ hmem)

/-- C6 counterexample: a response whose single entry has the method name
exactly `"/error"` (which ends in the suffix `"/error"`, so the claim
demands an error) is accepted by `validateJMAPResponse`: the code only
treats names longer than 6 characters as method errors. -/
theorem C6_validateJMAPResponse_counterexample :
    validateJMAPResponse ⟨[[Json.str errorSuffix, Json.obj []]], []⟩ = .ok () ∧
    goEndsWith errorSuffix errorSuffix = true ∧
    ([Json.str errorSuffix, Json.obj []] : List Json).length = 2 := by
  refine ⟨rfl, by decide, rfl⟩

/-- C6 (amended): `validateResponse` (`validateJMAPResponse`) is total
(never panics) and returns an error exactly when the top-level error list is
non-empty (surfaced verbatim), the batch has zero response entries, or some
entry fails the per-entry checks: it is empty, its first element does not
unmarshal as a method name, its method name is longer than 6 characters and
ends in the literal suffix `"/error"`, or it has fewer than 2 elements. For
a method-error entry carrying a payload, a structured `(type, message)` pair
is surfaced when the payload parses as a JMAP error object and the raw
payload is surfaced otherwise. -/
theorem C6_validateJMAPResponse_amended :
    (∀ r : MaskedEmailResponse,
      validateJMAPResponse r = .ok () ↔
        (r.MethodErrors = [] ∧ r.MethodResponses ≠ [] ∧
          ∀ entry ∈ r.MethodResponses, entryOK entry)) ∧
    (∀ (name : GoStr) (payload : Json) (rest : List Json),
      name.length > jmapErrorSuffixLen → goEndsWith name errorSuffix = true →
      validateJMAPResponse ⟨[Json.str name :: payload :: rest], []⟩ =
        .error (match unmarshalJMAPError payload with
          | some (t, m) => .jmapError t m
          | none => .jmapErrorRaw name payload)) := by
  constructor
  · intro r
    unfold validateJMAPResponse
    split_ifs with h1 h2
    · constructor
      · intro h; simp at h
      · rintro ⟨hme, -, -⟩
        rw [hme] at h1
        simp at h1
    · constructor
      · intro h; simp at h
      · rintro ⟨-, hne, -⟩
        exact hne (List.length_eq_zero.mp h2)
    · rw [checkEntries_ok_iff]
      constructor
      · intro h
        refine ⟨?_, ?_, h⟩
        · cases hme : r.MethodErrors with
          | nil => rfl
          | cons x xs => rw [hme] at h1; simp at h1
        · intro hnil
          rw [hnil] at h2
          simp at h2
      · rintro ⟨-, -, h⟩
        exact h
  · intro name payload rest h1 h2
    unfold validateJMAPResponse checkEntries
    rw [if_neg (by simp), if_neg (by simp)]
    simp only [unmarshalString]
    rw [if_pos (by simp [h1, h2])]
    cases unmarshalJMAPError payload with
    | none => rfl
    | some tm => rfl

/-- `"MaskedEmail/get/error"`. -/
def methodGetErrorName : GoStr := ['M', 'a', 's', 'k', 'e', 'd', 'E', 'm', 'a', 'i', 'l', '/', 'g', 'e', 't', '/', 'e', 'r', 'r', 'o', 'r']
/-- `"accountNotFound"`. -/
def acctNotFound : GoStr := ['a', 'c', 'c', 'o', 'u', 'n', 't', 'N', 'o', 't', 'F', 'o', 'u', 'n', 'd']
/-- `"no such account"`. -/
def noSuchAccount : GoStr := ['n', 'o', ' ', 's', 'u', 'c', 'h', ' ', 'a', 'c', 'c', 'o', 'u', 'n', 't']

/-- Witness for C6: a good single-entry response validates, and a
`MaskedEmail/get/error` entry with a parseable error object surfaces the
structured `(type, message)` pair. -/
theorem C6_validateJMAPResponse_witness :
    (validateJMAPResponse okResponse = .ok () ↔
      (okResponse.MethodErrors = [] ∧ okResponse.MethodResponses ≠ [] ∧
        ∀ entry ∈ okResponse.MethodResponses, entryOK entry)) ∧
    validateJMAPResponse
        ⟨[[Json.str methodGetErrorName,
           Json.obj [(typeKey, Json.str acctNotFound),
                     (messageKey, Json.str noSuchAccount)]]], []⟩ =
      .error (.jmapError acctNotFound noSuchAccount) :=
  ⟨C6_validateJMAPResponse_amended.1 okResponse,
   C6_validateJMAPResponse_amended.2 methodGetErrorName
     (Json.obj [(typeKey, Json.str acctNotFound),
                (messageKey, Json.str noSuchAccount)]) []
     (by decide) (by decide)⟩

/-! ## C5: the listing partition -/

/-- The classification a record must satisfy to be eligible for `related`:
not deleted, not a domain match, and a subdomain or free-text match. -/
def relatedPred (d nD nS : GoStr) (al : MaskedEmailInfo) : Bool :=
  !decide (al.State = AliasDeleted) && !aliasMatchesDomain al d &&
    (aliasMatchesSubdomain al d || aliasMatchesSearch al [nD, nS])

/-- The non-blank-id anti-duplication relation on `related`. -/
def IdR (x y : MaskedEmailInfo) : Prop :=
  x.ID ≠ [] → y.ID ≠ [] → x.ID ≠ y.ID

theorem filterLoop_fst (d nD nS : GoStr) :
    ∀ (l : List MaskedEmailInfo) (seen : List GoStr),
      (filterLoop d nD nS seen l).1 =
        l.filter (fun al => !decide (al.State = AliasDeleted) &&
          aliasMatchesDomain al d) := by
  intro l
  induction l with
  | nil => intro seen; rfl
  | cons a rest ih =>
    intro seen
    rw [List.filter_cons]
    simp only [filterLoop]
    by_cases h1 : a.State = AliasDeleted
    · rw [if_pos h1, ih seen]
      simp [h1]
    · rw [if_neg h1]
      by_cases h2 : aliasMatchesDomain a d = true
      · rw [if_pos h2]
        simp only []
        rw [ih]
        simp [h1, h2]
      · rw [if_neg h2]
        by_cases h3 : aliasMatchesSubdomain a d = true
        · rw [if_pos h3]
          by_cases h4 : (decide (a.ID ≠ []) && seen.contains a.ID) = true
          · rw [if_pos h4, ih seen]
            simp [h1, h2]
          · rw [if_neg h4]
            simp only []
            rw [ih]
            simp [h1, h2]
        · rw [if_neg h3]
          by_cases h5 : aliasMatchesSearch a [nD, nS] = true
          · rw [if_pos h5]
            by_cases h4 : (decide (a.ID ≠ []) && seen.contains a.ID) = true
            · rw [if_pos h4, ih seen]
              simp [h1, h2]
            · rw [if_neg h4]
              simp only []
              rw [ih]
              simp [h1, h2]
          · rw [if_neg h5, ih seen]
            simp [h1, h2]

theorem filterLoop_snd_mem (d nD nS : GoStr) :
    ∀ (l : List MaskedEmailInfo) (seen : List GoStr),
      ∀ al ∈ (filterLoop d nD nS seen l).2,
        ¬(al.State = AliasDeleted) ∧ aliasMatchesDomain al d = false ∧
          (aliasMatchesSubdomain al d = true ∨
            aliasMatchesSearch al [nD, nS] = true) := by
  intro l
  induction l with
  | nil => intro seen al h; simp [filterLoop] at h
  | cons a rest ih =>
    intro seen al h
    simp only [filterLoop] at h
    by_cases h1 : a.State = AliasDeleted
    · rw [if_pos h1] at h
      exact ih seen al h
    · rw [if_neg h1] at h
      by_cases h2 : aliasMatchesDomain a d = true
      · rw [if_pos h2] at h
        simp only [] at h
        exact ih _ al h
      · rw [if_neg h2] at h
        by_cases h3 : aliasMatchesSubdomain a d = true
        · rw [if_pos h3] at h
          by_cases h4 : (decide (a.ID ≠ []) && seen.contains a.ID) = true
          · rw [if_pos h4] at h
            exact ih seen al h
          · rw [if_neg h4] at h
            simp only [] at h
            rcases List.mem_cons.mp h with rfl | h'
            · exact ⟨h1, Bool.eq_false_iff.mpr h2, Or.inl h3⟩
            · exact ih _ al h'
        · rw [if_neg h3] at h
          by_cases h5 : aliasMatchesSearch a [nD, nS] = true
          · rw [if_pos h5] at h
            by_cases h4 : (decide (a.ID ≠ []) && seen.contains a.ID) = true
            · rw [if_pos h4] at h
              exact ih seen al h
            · rw [if_neg h4] at h
              simp only [] at h
              rcases List.mem_cons.mp h with rfl | h'
              · exact ⟨h1, Bool.eq_false_iff.mpr h2, Or.inr h5⟩
              · exact ih _ al h'
          · rw [if_neg h5] at h
            exact ih seen al h

theorem filterLoop_snd_sublist (d nD nS : GoStr) :
    ∀ (l : List MaskedEmailInfo) (seen : List GoStr),
      (filterLoop d nD nS seen l).2.Sublist l := by
  intro l
  induction l with
  | nil => intro seen; simp [filterLoop]
  | cons a rest ih =>
    intro seen
    simp only [filterLoop]
    by_cases h1 : a.State = AliasDeleted
    · rw [if_pos h1]
      exact (ih seen).cons a
    · rw [if_neg h1]
      by_cases h2 : aliasMatchesDomain a d = true
      · rw [if_pos h2]
        simp only []
        exact (ih _).cons a
      · rw [if_neg h2]
        by_cases h3 : aliasMatchesSubdomain a d = true
        · rw [if_pos h3]
          by_cases h4 : (decide (a.ID ≠ []) && seen.contains a.ID) = true
          · rw [if_pos h4]
            exact (ih seen).cons a
          · rw [if_neg h4]
            simp only []
            exact (ih _).cons₂ a
        · rw [if_neg h3]
          by_cases h5 : aliasMatchesSearch a [nD, nS] = true
          · rw [if_pos h5]
            by_cases h4 : (decide (a.ID ≠ []) && seen.contains a.ID) = true
            · rw [if_pos h4]
              exact (ih seen).cons a
            · rw [if_neg h4]
              simp only []
              exact (ih _).cons₂ a
          · rw [if_neg h5]
            exact (ih seen).cons a

theorem filterLoop_snd_nodup (d nD nS : GoStr) :
    ∀ (l : List MaskedEmailInfo) (seen : List GoStr),
      List.Pairwise IdR (filterLoop d nD nS seen l).2 ∧
      ∀ x ∈ (filterLoop d nD nS seen l).2, x.ID ≠ [] → x.ID ∉ seen := by
  intro l
  induction l with
  | nil =>
    intro seen
    exact ⟨by simp [filterLoop], fun x hx => by simp [filterLoop] at hx⟩
  | cons a rest ih =>
    intro seen
    simp only [filterLoop]
    by_cases h1 : a.State = AliasDeleted
    · rw [if_pos h1]; exact ih seen
    · rw [if_neg h1]
      by_cases h2 : aliasMatchesDomain a d = true
      · rw [if_pos h2]
        simp only []
        refine ⟨(ih _).1, fun x hx hxid => ?_⟩
        have hnotin := (ih _).2 x hx hxid
        by_cases hid : a.ID ≠ []
        · rw [if_pos hid] at hnotin
          exact fun hmem => hnotin (List.mem_cons_of_mem _ hmem)
        · rw [if_neg hid] at hnotin
          exact hnotin
      · rw [if_neg h2]
        by_cases h3 : aliasMatchesSubdomain a d = true
        · rw [if_pos h3]
          by_cases h4 : (decide (a.ID ≠ []) && seen.contains a.ID) = true
          · rw [if_pos h4]; exact ih seen
          · rw [if_neg h4]
            simp only []
            constructor
            · refine List.Pairwise.cons ?_ (ih _).1
              intro y hy haid hyid
              have hy' := (ih _).2 y hy hyid
              rw [if_pos haid] at hy'
              intro heq
              exact hy' (by rw [← heq]; exact List.mem_cons_self _ _)
            · intro x hx hxid
              rcases List.mem_cons.mp hx with rfl | hx'
              · intro hmem
                exact h4 (by
                  rw [Bool.and_eq_true]
                  exact ⟨by simpa using hxid, by simpa using hmem⟩)
              · have hx'' := (ih _).2 x hx' hxid
                by_cases hid : a.ID ≠ []
                · rw [if_pos hid] at hx''
                  exact fun hmem => hx'' (List.mem_cons_of_mem _ hmem)
                · rw [if_neg hid] at hx''
                  exact hx''
        · rw [if_neg h3]
          by_cases h5 : aliasMatchesSearch a [nD, nS] = true
          · rw [if_pos h5]
            by_cases h4 : (decide (a.ID ≠ []) && seen.contains a.ID) = true
            · rw [if_pos h4]; exact ih seen
            · rw [if_neg h4]
              simp only []
              constructor
              · refine List.Pairwise.cons ?_ (ih _).1
                intro y hy haid hyid
                have hy' := (ih _).2 y hy hyid
                rw [if_pos haid] at hy'
                intro heq
                exact hy' (by rw [← heq]; exact List.mem_cons_self _ _)
              · intro x hx hxid
                rcases List.mem_cons.mp hx with rfl | hx'
                · intro hmem
                  exact h4 (by
                    rw [Bool.and_eq_true]
                    exact ⟨by simpa using hxid, by simpa using hmem⟩)
                · have hx'' := (ih _).2 x hx' hxid
                  by_cases hid : a.ID ≠ []
                  · rw [if_pos hid] at hx''
                    exact fun hmem => hx'' (List.mem_cons_of_mem _ hmem)
                  · rw [if_neg hid] at hx''
                    exact hx''
          · rw [if_neg h5]
            exact ih seen

theorem filterLoop_count_blank (d nD nS : GoStr) :
    ∀ (l : List MaskedEmailInfo) (seen : List GoStr) (x : MaskedEmailInfo),
      x.ID = [] →
      (filterLoop d nD nS seen l).2.count x =
        (l.filter (relatedPred d nD nS)).count x := by
  intro l
  induction l with
  | nil => intro seen x hx; rfl
  | cons a rest ih =>
    intro seen x hx
    rw [List.filter_cons]
    simp only [filterLoop]
    by_cases h1 : a.State = AliasDeleted
    · rw [if_pos h1, ih seen x hx]
      simp [relatedPred, h1]
    · rw [if_neg h1]
      by_cases h2 : aliasMatchesDomain a d = true
      · rw [if_pos h2]
        simp only []
        rw [ih _ x hx]
        simp [relatedPred, h2]
      · rw [if_neg h2]
        by_cases h3 : aliasMatchesSubdomain a d = true
        · rw [if_pos h3]
          by_cases h4 : (decide (a.ID ≠ []) && seen.contains a.ID) = true
          · rw [if_pos h4, ih seen x hx]
            have hax : ¬(a = x) := by
              intro heq
              rw [Bool.and_eq_true] at h4
              have hne : a.ID ≠ [] := by simpa using h4.1
              exact hne (by rw [heq, hx])
            have hax' : ¬(x = a) := fun heq => hax heq.symm
            simp [relatedPred, h1, h2, h3, List.count_cons, hax, hax']
          · rw [if_neg h4]
            simp only []
            rw [List.count_cons, ih _ x hx]
            simp [relatedPred, h1, h2, h3, List.count_cons]
        · rw [if_neg h3]
          by_cases h5 : aliasMatchesSearch a [nD, nS] = true
          · rw [if_pos h5]
            by_cases h4 : (decide (a.ID ≠ []) && seen.contains a.ID) = true
            · rw [if_pos h4, ih seen x hx]
              have hax : ¬(a = x) := by
                intro heq
                rw [Bool.and_eq_true] at h4
                have hne : a.ID ≠ [] := by simpa using h4.1
                exact hne (by rw [heq, hx])
              have hax' : ¬(x = a) := fun heq => hax heq.symm
              simp [relatedPred, h1, h2, h3, h5, List.count_cons, hax, hax']
            · rw [if_neg h4]
              simp only []
              rw [List.count_cons, ih _ x hx]
              simp [relatedPred, h1, h2, h3, h5, List.count_cons]
          · rw [if_neg h5, ih seen x hx]
            simp [relatedPred, h1, h2, h3, h5]

/-- C5: `partitionForListing` (`filterAliasesForList`) computes, in one scan:
`primary` is exactly the non-deleted records whose domain matches, in input
order (first match wins: a domain match never reaches the later tiers);
`related` preserves input order (it is a sublist of the input); every record
in `related` is non-deleted, is not a domain match, and is a subdomain or
free-text match against the lower-cased trimmed target/search needles;
records with a non-blank id are never duplicated across `related` placements
(`IdR` pairwise); `related` shares no record with `primary`; and records
with a blank id are never deduplicated — every occurrence that classifies as
related-eligible is kept (exact multiplicity). Deleted records appear in
neither output. -/
theorem C5_filterAliasesForList_correct :
    ∀ (aliases : List MaskedEmailInfo) (normalizedDomain searchInput : GoStr),
      (filterAliasesForList aliases normalizedDomain searchInput).1 =
        aliases.filter (fun al => !decide (al.State = AliasDeleted) &&
          aliasMatchesDomain al normalizedDomain) ∧
      (filterAliasesForList aliases normalizedDomain searchInput).2.Sublist aliases ∧
      (∀ al ∈ (filterAliasesForList aliases normalizedDomain searchInput).2,
        ¬(al.State = AliasDeleted) ∧
          aliasMatchesDomain al normalizedDomain = false ∧
          (aliasMatchesSubdomain al normalizedDomain = true ∨
            aliasMatchesSearch al [goToLower (goTrimSpace normalizedDomain),
              goToLower (goTrimSpace searchInput)] = true)) ∧
      List.Pairwise IdR
        (filterAliasesForList aliases normalizedDomain searchInput).2 ∧
      (∀ x ∈ (filterAliasesForList aliases normalizedDomain searchInput).2,
        ∀ y ∈ (filterAliasesForList aliases normalizedDomain searchInput).1,
          x ≠ y) ∧
      (∀ x : MaskedEmailInfo, x.ID = [] →
        (filterAliasesForList aliases normalizedDomain searchInput).2.count x =
          (aliases.filter (relatedPred normalizedDomain
            (goToLower (goTrimSpace normalizedDomain))
            (goToLower (goTrimSpace searchInput)))).count x) := by
  intro aliases d s
  simp only [filterAliasesForList]
  refine ⟨filterLoop_fst d _ _ aliases [], filterLoop_snd_sublist d _ _ aliases [],
    filterLoop_snd_mem d _ _ aliases [], (filterLoop_snd_nodup d _ _ aliases []).1,
    ?_, fun x hx => filterLoop_count_blank d _ _ aliases [] x hx⟩
  intro x hx y hy heq
  have hxm := filterLoop_snd_mem d _ _ aliases [] x hx
  rw [filterLoop_fst d _ _ aliases []] at hy
  have hym := (List.mem_filter.mp hy).2
  rw [Bool.and_eq_true] at hym
  rw [heq] at hxm
  rw [hym.2] at hxm
  exact Bool.noConfusion hxm.2.1

/-- The records of `TestFilterAliasesForList`. -/
def recOne : MaskedEmailInfo :=
  ⟨['o', 'n', 'e', '@', 'e', 'x', 'a', 'm', 'p', 'l', 'e', '.', 'c', 'o', 'm'], ['h', 't', 't', 'p', 's', ':', '/', '/', 'e', 'x', 'a', 'm', 'p', 'l', 'e', '.', 'c', 'o', 'm'], [], AliasEnabled, ['1']⟩
/-- Second test record: a free-text match through its description. -/
def recTwo : MaskedEmailInfo :=
  ⟨['t', 'w', 'o', '@', 'e', 'x', 'a', 'm', 'p', 'l', 'e', '.', 'c', 'o', 'm'], ['h', 't', 't', 'p', 's', ':', '/', '/', 'o', 't', 'h', 'e', 'r', '.', 'c', 'o', 'm'], ['E', 'x', 'a', 'm', 'p', 'l', 'e', ' ', 'l', 'o', 'g', 'i', 'n'],
   AliasEnabled, ['2']⟩
/-- Third test record: a free-text match through its email. -/
def recThree : MaskedEmailInfo :=
  ⟨['t', 'h', 'r', 'e', 'e', '@', 'e', 'x', 'a', 'm', 'p', 'l', 'e', '.', 'c', 'o', 'm'], ['h', 't', 't', 'p', 's', ':', '/', '/', 't', 'h', 'i', 'r', 'd', '.', 'c', 'o', 'm'], [], AliasEnabled, ['3']⟩
/-- Fourth test record: a subdomain match. -/
def recSub : MaskedEmailInfo :=
  ⟨['s', 'u', 'b', '@', 'e', 'x', 'a', 'm', 'p', 'l', 'e', '.', 'c', 'o', 'm'], ['h', 't', 't', 'p', 's', ':', '/', '/', 's', 'u', 'b', '.', 'e', 'x', 'a', 'm', 'p', 'l', 'e', '.', 'c', 'o', 'm'], [], AliasEnabled,
   ['5']⟩
/-- Fifth test record: deleted, excluded from both outputs. -/
def recDeleted : MaskedEmailInfo :=
  ⟨['d', 'e', 'l', 'e', 't', 'e', 'd', '@', 'e', 'x', 'a', 'm', 'p', 'l', 'e', '.', 'c', 'o', 'm'], ['h', 't', 't', 'p', 's', ':', '/', '/', 'e', 'x', 'a', 'm', 'p', 'l', 'e', '.', 'c', 'o', 'm'], [], AliasDeleted,
   ['4']⟩
/-- The record list of `TestFilterAliasesForList`. -/
def testAliases : List MaskedEmailInfo :=
  [recOne, recTwo, recThree, recSub, recDeleted]
/-- `"example"`, the raw search text of the test. -/
def exampleSearch : GoStr := ['e', 'x', 'a', 'm', 'p', 'l', 'e']

/-- Witness for C5, on the input of `TestFilterAliasesForList`: primary is
exactly the enabled exact-domain record, related is the other three
non-deleted matches in input order, and the per-record classification holds
for the subdomain record. -/
theorem C5_filterAliasesForList_witness :
    ((filterAliasesForList testAliases exOrigin exampleSearch).1 =
      testAliases.filter (fun al => !decide (al.State = AliasDeleted) &&
        aliasMatchesDomain al exOrigin)) ∧
    (¬(recSub.State = AliasDeleted) ∧
      aliasMatchesDomain recSub exOrigin = false ∧
      (aliasMatchesSubdomain recSub exOrigin = true ∨
        aliasMatchesSearch recSub [goToLower (goTrimSpace exOrigin),
          goToLower (goTrimSpace exampleSearch)] = true)) ∧
    (filterAliasesForList testAliases exOrigin exampleSearch).1 = [recOne] ∧
    (filterAliasesForList testAliases exOrigin exampleSearch).2 =
      [recTwo, recThree, recSub] :=
  ⟨(C5_filterAliasesForList_correct testAliases exOrigin exampleSearch).1,
   (C5_filterAliasesForList_correct testAliases exOrigin exampleSearch).2.2.1
     recSub (by decide),
   by decide, by decide⟩

/-! ## C2 and C3: the canonicalizer

Character classes used to state the amended idempotence claim, and the
evaluation lemmas that walk `urlParse` over a canonical `scheme://host`
string. -/

/-- The lower-case ASCII letters. -/
def lowerAlphaChars : List Char := ['a', 'b', 'c', 'd', 'e', 'f', 'g', 'h', 'i', 'j', 'k', 'l', 'm', 'n', 'o', 'p', 'q', 'r', 's', 't', 'u', 'v', 'w', 'x', 'y', 'z']

/-- The ASCII digits. -/
def digitChars : List Char := ['0', '1', '2', '3', '4', '5', '6', '7', '8', '9']

/-- Characters allowed in a "simple" scheme: lower-case letters, digits,
`'+'`, `'-'`, `'.'`. -/
def simpleSchemeChars : List Char := lowerAlphaChars ++ digitChars ++ ['+', '-', '.']

/-- Characters of a "simple" host: lower-case letters, digits, `'.'`,
`'-'`, `'_'`. -/
def simpleHostChars : List Char := lowerAlphaChars ++ digitChars ++ ['.', '-', '_']

/-- A simple scheme: non-empty, letter-led, all characters simple. -/
def goodScheme (s : GoStr) : Bool :=
  match s with
  | [] => false
  | c :: _ => c ∈ lowerAlphaChars && s.all (fun c' => c' ∈ simpleSchemeChars)

/-- A simple host: non-empty, all characters simple, no trailing dot. -/
def goodHost (h : GoStr) : Bool :=
  !h.isEmpty && h.all (fun c => c ∈ simpleHostChars) && !(h.getLast? == some '.')

theorem schemeChar_space : ∀ c ∈ simpleSchemeChars, goIsSpace c = false := by decide
theorem schemeChar_lower : ∀ c ∈ simpleSchemeChars, goToLowerChar c = c := by decide
theorem schemeChar_ctl : ∀ c ∈ simpleSchemeChars,
    (decide (c.toNat < 0x20) || decide (c.toNat = 0x7f)) = false := by decide
theorem schemeChar_ne_hash : ∀ c ∈ simpleSchemeChars, c ≠ '#' := by decide

theorem hostChar_space : ∀ c ∈ simpleHostChars, goIsSpace c = false := by decide
theorem hostChar_lower : ∀ c ∈ simpleHostChars, goToLowerChar c = c := by decide
theorem hostChar_ctl : ∀ c ∈ simpleHostChars,
    (decide (c.toNat < 0x20) || decide (c.toNat = 0x7f)) = false := by decide
theorem hostChar_esc : ∀ c ∈ simpleHostChars, shouldEscapeHost c = false := by decide
theorem hostChar_ne_hash : ∀ c ∈ simpleHostChars, c ≠ '#' := by decide
theorem hostChar_ne_query : ∀ c ∈ simpleHostChars, c ≠ '?' := by decide
theorem hostChar_ne_slash : ∀ c ∈ simpleHostChars, c ≠ '/' := by decide
theorem hostChar_ne_pct : ∀ c ∈ simpleHostChars, c ≠ '%' := by decide
theorem hostChar_ne_plus : ∀ c ∈ simpleHostChars, c ≠ '+' := by decide
theorem hostChar_ne_at : ∀ c ∈ simpleHostChars, c ≠ '@' := by decide
theorem hostChar_ne_colon : ∀ c ∈ simpleHostChars, c ≠ ':' := by decide
theorem hostChar_ne_lbracket : ∀ c ∈ simpleHostChars, c ≠ '[' := by decide

theorem sepChar_cases : ∀ c ∈ schemeSep, c = ':' ∨ c = '/' := by decide

theorem lowerAlpha_isSchemeAlpha : ∀ c ∈ lowerAlphaChars,
    isSchemeAlpha c = true := by decide

theorem schemeChar_branch : ∀ c ∈ simpleSchemeChars,
    isSchemeAlpha c = true ∨
      (isSchemeAlpha c = false ∧
        (isAsciiDigit c || c = '+' || c = '-' || c = '.') = true) := by decide

theorem goToLower_fixed (s : GoStr) (h : ∀ c ∈ s, goToLowerChar c = c) :
    goToLower s = s := by
  unfold goToLower
  induction s with
  | nil => rfl
  | cons c rest ih =>
    rw [List.map_cons, h c (List.mem_cons_self _ _),
      ih (fun d hd => h d (List.mem_cons_of_mem _ hd))]

theorem unescapeG_id (mode : EscMode) :
    ∀ h : GoStr,
      (∀ c ∈ h, c ≠ '%' ∧ c ≠ '+' ∧ shouldEscapeHost c = false) →
      unescapeG mode h = some h := by
  intro h
  induction h with
  | nil => intro _; rfl
  | cons c rest ih =>
    intro hall
    obtain ⟨hp, hplus, hesc⟩ := hall c (List.mem_cons_self _ _)
    rw [unescapeG.eq_def]
    simp only []
    rw [if_neg hp, if_neg hplus,
      if_neg (by simp [hesc]),
      ih (fun d hd => hall d (List.mem_cons_of_mem _ hd))]
    rfl

theorem getSchemeAux_run (s' : GoStr)
    (hs' : ∀ c ∈ s', c ∈ simpleSchemeChars) :
    ∀ (acc : GoStr) (r : GoStr), acc ≠ [] →
      getSchemeAux acc (s' ++ ':' :: r) = some (acc.reverse ++ s', r) := by
  induction s' with
  | nil =>
    intro acc r hacc
    rw [List.nil_append]
    simp only [getSchemeAux]
    rw [if_neg (by decide), if_neg (by decide), if_pos trivial, if_neg hacc]
    simp
  | cons c s'' ih =>
    intro acc r hacc
    rw [List.cons_append]
    simp only [getSchemeAux]
    have hmem := hs' c (List.mem_cons_self _ _)
    have hih := ih (fun d hd => hs' d (List.mem_cons_of_mem _ hd))
      (c :: acc) r (List.cons_ne_nil _ _)
    rcases schemeChar_branch c hmem with halpha | ⟨hnalpha, hdig⟩
    · rw [if_pos halpha, hih]
      simp
    · rw [if_neg (by simp [hnalpha]), if_pos hdig, if_neg hacc, hih]
      simp

theorem goStartsWith_cons_single (c d : Char) (rest : GoStr) :
    goStartsWith (c :: rest) [d] = decide (c = d) := by
  simp [goStartsWith]

/-- `getLast? = some` implies membership. -/
theorem mem_of_getLast?G {l : GoStr} {c : Char} (h : l.getLast? = some c) :
    c ∈ l := by
  obtain ⟨hne, heq⟩ :=
    List.mem_getLast?_eq_getLast (show c ∈ l.getLast? by rw [h]; rfl)
  rw [heq]
  exact List.getLast_mem hne

theorem goodHost_parts (h : GoStr) (hh : goodHost h = true) :
    h ≠ [] ∧ (∀ c ∈ h, c ∈ simpleHostChars) ∧ h.getLast? ≠ some '.' := by
  unfold goodHost at hh
  rw [Bool.and_eq_true, Bool.and_eq_true] at hh
  obtain ⟨⟨h1, h2⟩, h3⟩ := hh
  refine ⟨?_, ?_, ?_⟩
  · intro hnil; rw [hnil] at h1; simp at h1
  · intro c hc
    have := List.all_eq_true.mp h2 c hc
    simpa using this
  · intro heq; rw [heq] at h3; simp at h3

theorem goodScheme_parts (s : GoStr) (hs : goodScheme s = true) :
    ∃ c0 s', s = c0 :: s' ∧ c0 ∈ lowerAlphaChars ∧
      ∀ c ∈ s, c ∈ simpleSchemeChars := by
  cases s with
  | nil => simp [goodScheme] at hs
  | cons c0 s' =>
    rw [goodScheme, Bool.and_eq_true] at hs
    refine ⟨c0, s', rfl, by simpa using hs.1, ?_⟩
    intro c hc
    have := List.all_eq_true.mp hs.2 c hc
    simpa using this

/-- A canonical `scheme://host` string built from simple characters is a
fixed point of `normalizeOrigin`. -/
theorem normalizeOrigin_fixedpoint (s h : GoStr)
    (hs : goodScheme s = true) (hh : goodHost h = true) :
    normalizeOrigin (s ++ schemeSep ++ h) = .ok (s ++ schemeSep ++ h) := by
  obtain ⟨c0, s', rfl, hc0, hsall⟩ := goodScheme_parts s hs
  obtain ⟨hhne, hhall, hhlast⟩ := goodHost_parts h hh
  have hA : (c0 :: s') ++ schemeSep ++ h = c0 :: (s' ++ schemeSep ++ h) := by
    simp
  have hmem : ∀ c ∈ (c0 :: s') ++ schemeSep ++ h,
      c ∈ simpleSchemeChars ∨ c ∈ schemeSep ∨ c ∈ simpleHostChars := by
    intro c hc
    rcases List.mem_append.mp hc with hc1 | hc2
    · rcases List.mem_append.mp hc1 with hc3 | hc4
      · exact Or.inl (hsall c hc3)
      · exact Or.inr (Or.inl hc4)
    · exact Or.inr (Or.inr (hhall c hc2))
  -- ends of the string are not white space
  have htrim : goTrimSpace ((c0 :: s') ++ schemeSep ++ h) =
      (c0 :: s') ++ schemeSep ++ h := by
    apply goTrimSpace_eq_self
    · intro c hc
      rw [hA, List.head?_cons, Option.some.injEq] at hc
      rw [← hc]
      exact schemeChar_space c0 (hsall c0 (List.mem_cons_self _ _))
    · intro c hc
      rw [List.getLast?_append_of_ne_nil _ hhne] at hc
      exact hostChar_space c (hhall c (mem_of_getLast?G hc))
  -- the separator occurs
  have hcontains : goContainsStr ((c0 :: s') ++ schemeSep ++ h) schemeSep = true := by
    rw [List.append_assoc]
    exact goContainsStr_of_append _ _ _
  have hwds : withDefaultScheme ((c0 :: s') ++ schemeSep ++ h) =
      (c0 :: s') ++ schemeSep ++ h := by
    unfold withDefaultScheme
    rw [hcontains]
    simp
  -- no '#' anywhere
  have hnohash : ∀ c ∈ (c0 :: s') ++ schemeSep ++ h, c ≠ '#' := by
    intro c hc
    rcases hmem c hc with h1 | h2 | h3
    · exact schemeChar_ne_hash c h1
    · rcases sepChar_cases c h2 with rfl | rfl <;> decide
    · exact hostChar_ne_hash c h3
  -- no control bytes
  have hctl : containsCTL ((c0 :: s') ++ schemeSep ++ h) = false := by
    unfold containsCTL
    rw [List.any_eq_false]
    intro c hc
    rcases hmem c hc with h1 | h2 | h3
    · simp only [schemeChar_ctl c h1]; simp
    · rcases sepChar_cases c h2 with rfl | rfl <;> decide
    · simp only [hostChar_ctl c h3]; simp
  -- not the literal "*"
  have hstar : (c0 :: s') ++ schemeSep ++ h ≠ ['*'] := by
    rw [hA]
    intro heq
    injection heq with h1 h2
    have := hsall c0 (List.mem_cons_self _ _)
    rw [h1] at this
    exact absurd this (by decide)
  -- the scheme scan
  have hsplit : (c0 :: s') ++ schemeSep ++ h =
      c0 :: (s' ++ ':' :: ('/' :: '/' :: h)) := by
    simp [schemeSep]
  have hgs : getSchemeG ((c0 :: s') ++ schemeSep ++ h) =
      some (c0 :: s', '/' :: '/' :: h) := by
    rw [hsplit]
    unfold getSchemeG
    simp only [getSchemeAux]
    rw [if_pos (lowerAlpha_isSchemeAlpha c0 hc0),
      getSchemeAux_run s' (fun c hc => hsall c (List.mem_cons_of_mem _ hc))
        [c0] _ (by simp)]
    simp
  -- the lowered scheme is itself
  have hlow : goToLower (c0 :: s') = c0 :: s' :=
    goToLower_fixed _ (fun c hc => schemeChar_lower c (hsall c hc))
  have hlowh : goToLower h = h :=
    goToLower_fixed _ (fun c hc => hostChar_lower c (hhall c hc))
  -- rest0 = "//" ++ h facts
  have hrest_last : ('/' :: '/' :: h).getLast? = h.getLast? := by
    show (['/', '/'] ++ h).getLast? = h.getLast?
    exact List.getLast?_append_of_ne_nil _ hhne
  have hend : goEndsWith ('/' :: '/' :: h) ['?'] = false := by
    rw [Bool.eq_false_iff]
    intro hcontra
    rw [goEndsWith_single, hrest_last] at hcontra
    exact hostChar_ne_query '?' (hhall '?' (mem_of_getLast?G hcontra)) rfl
  have hsplitq : urlSplit ('/' :: '/' :: h) '?' true = ('/' :: '/' :: h, []) := by
    apply urlSplit_no_sep
    intro c hc
    rcases List.mem_cons.mp hc with rfl | hc'
    · decide
    · rcases List.mem_cons.mp hc' with rfl | hc''
      · decide
      · exact hostChar_ne_query c (hhall c hc'')
  have hsw1 : goStartsWith ('/' :: '/' :: h) ['/'] = true := by
    simp [goStartsWith]
  have hsw2 : goStartsWith ('/' :: '/' :: h) ['/', '/'] = true := by
    simp [goStartsWith]
  have hidx : goIndexChar h '/' = none :=
    goIndexChar_eq_none '/' h (fun c hc => hostChar_ne_slash c (hhall c hc))
  have hat : goLastIndexChar h '@' = none :=
    goLastIndexChar_eq_none '@' h (fun c hc => hostChar_ne_at c (hhall c hc))
  have hcolon : goLastIndexChar h ':' = none :=
    goLastIndexChar_eq_none ':' h (fun c hc => hostChar_ne_colon c (hhall c hc))
  have hbr : goStartsWith h ['['] = false := by
    obtain ⟨h0, htl, rfl⟩ := List.exists_cons_of_ne_nil hhne
    rw [goStartsWith_cons_single]
    simp [hostChar_ne_lbracket h0 (hhall h0 (List.mem_cons_self _ _))]
  have hun : unescapeG .host h = some h :=
    unescapeG_id .host h (fun c hc =>
      ⟨hostChar_ne_pct c (hhall c hc), hostChar_ne_plus c (hhall c hc),
        hostChar_esc c (hhall c hc)⟩)
  have hhost : parseHostG h = some h := by
    unfold parseHostG
    rw [if_neg (by simp [hbr]), hcolon]
    exact hun
  have hauth : parseAuthorityG h = some h := by
    unfold parseAuthorityG
    rw [hat]
    exact hhost
  have hparse : parseG ((c0 :: s') ++ schemeSep ++ h) = some ⟨c0 :: s', h⟩ := by
    unfold parseG
    rw [if_neg (by simpa using hctl), if_neg hstar, hgs]
    simp only [hlow, hend, hsplitq, hsw1, hsw2, hidx, hat, hauth, hbr, hcolon,
      hun, List.drop_succ_cons, List.drop_zero, Bool.false_eq_true, false_and,
      if_false, Bool.not_true, Bool.not_false, Bool.true_and, Bool.and_true,
      Bool.or_true, Bool.true_or]
    simp [hsw1, hsw2, hidx, hauth]
    rfl
  have hup : urlParse ((c0 :: s') ++ schemeSep ++ h) = some ⟨c0 :: s', h⟩ := by
    unfold urlParse
    rw [urlSplit_no_sep _ _ _ hnohash]
    simp only []
    rw [hparse]
    simp
  have hhostname : hostnameG ⟨c0 :: s', h⟩ = h := by
    unfold hostnameG splitHostPortG
    rw [hcolon]
    simp only []
    rw [if_neg (by simp [hbr])]
  have hsuffix : goTrimSuffix h ['.'] = h := by
    unfold goTrimSuffix
    rw [if_neg (by
      intro hcontra
      rw [goEndsWith_single] at hcontra
      exact hhlast hcontra)]
  -- assemble normalizeOrigin
  unfold normalizeOrigin
  simp only []
  rw [htrim, if_neg (by rw [hA]; exact List.cons_ne_nil _ _), hwds, hup]
  simp only []
  rw [hhostname, if_neg hhne, hlow, hlowh]
  rw [if_neg (List.cons_ne_nil _ _), hsuffix]

/-- C2: `normalize` (`normalizeOrigin`) trims white space and fails on
(trimmed-)empty input; an input without the scheme separator `"://"` is
normalized exactly as if `https://` were prepended to its trimmed form;
when the URL parse of the (scheme-completed) trimmed input succeeds, the
function fails with the missing-host error iff the parsed host is empty and
otherwise returns exactly `scheme://host` with the scheme lower-cased
(defaulting to `https` when empty), the host lower-cased with one trailing
dot stripped, and everything else (path, query, fragment, user info, port —
never read back out of the parse result) discarded. -/
theorem C2_normalizeOrigin_correct :
    (∀ x : GoStr, goTrimSpace x = [] →
      normalizeOrigin x = .error .emptyInput) ∧
    (∀ x : GoStr, normalizeOrigin x = normalizeOrigin (goTrimSpace x)) ∧
    (∀ x : GoStr, goTrimSpace x ≠ [] →
      goContainsStr (goTrimSpace x) schemeSep = false →
      normalizeOrigin x =
        normalizeOrigin (defaultScheme ++ schemeSep ++ goTrimSpace x)) ∧
    (∀ (x : GoStr) (u : GoURL), goTrimSpace x ≠ [] →
      urlParse (withDefaultScheme (goTrimSpace x)) = some u →
      (hostnameG u = [] → normalizeOrigin x = .error .missingHost) ∧
      (hostnameG u ≠ [] → normalizeOrigin x = .ok
        ((if goToLower u.scheme = [] then defaultScheme else goToLower u.scheme)
          ++ schemeSep ++ goTrimSuffix (goToLower (hostnameG u)) ['.']))) := by
  refine ⟨?_, ?_, ?_, ?_⟩
  · intro x hx
    simp only [normalizeOrigin]
    rw [hx]
    simp
  · intro x
    simp only [normalizeOrigin, goTrimSpace_idem]
  · intro x ht hcon
    have hheadA : (defaultScheme ++ schemeSep ++ goTrimSpace x).head? = some 'h' := rfl
    have htA : goTrimSpace (defaultScheme ++ schemeSep ++ goTrimSpace x) =
        defaultScheme ++ schemeSep ++ goTrimSpace x := by
      apply goTrimSpace_eq_self
      · intro c hc
        rw [hheadA, Option.some.injEq] at hc
        rw [← hc]; decide
      · intro c hc
        rw [List.getLast?_append_of_ne_nil _ ht] at hc
        exact goTrimSpace_getLast?_not_space x c hc
    have hconA : goContainsStr (defaultScheme ++ schemeSep ++ goTrimSpace x)
        schemeSep = true := by
      rw [List.append_assoc]
      exact goContainsStr_of_append _ _ _
    have hAne : defaultScheme ++ schemeSep ++ goTrimSpace x ≠ [] := by
      intro heq
      rw [heq] at hheadA
      exact Option.noConfusion hheadA
    simp only [normalizeOrigin]
    rw [htA, if_neg ht, if_neg hAne]
    unfold withDefaultScheme
    rw [hcon, hconA]
    simp
  · intro x u ht hu
    simp only [normalizeOrigin]
    rw [if_neg ht, hu]
    simp only []
    constructor
    · intro hh; rw [if_pos hh]
    · intro hh; rw [if_neg hh]

/-- `"example.com"`. -/
def exDomain : GoStr := ['e', 'x', 'a', 'm', 'p', 'l', 'e', '.', 'c', 'o', 'm']
/-- The parse result of `"HTTPS://Example.COM"`. -/
def upperParsed : GoURL := ⟨defaultScheme, ['E', 'x', 'a', 'm', 'p', 'l', 'e', '.', 'C', 'O', 'M']⟩

/-- Witness for C2: the empty-input, scheme-prepending and success paths at
the inputs of `TestNormalizeOrigin`. -/
theorem C2_normalizeOrigin_witness :
    normalizeOrigin blankInput = .error .emptyInput ∧
    normalizeOrigin exDomain =
      normalizeOrigin (defaultScheme ++ schemeSep ++ goTrimSpace exDomain) ∧
    normalizeOrigin upperOrigin = .ok
      ((if goToLower upperParsed.scheme = [] then defaultScheme
        else goToLower upperParsed.scheme)
        ++ schemeSep ++ goTrimSuffix (goToLower (hostnameG upperParsed)) ['.']) ∧
    normalizeOrigin upperOrigin = .ok exOrigin :=
  ⟨C2_normalizeOrigin_correct.1 blankInput rfl,
   C2_normalizeOrigin_correct.2.2.1 exDomain (by decide) (by decide),
   (C2_normalizeOrigin_correct.2.2.2 upperOrigin upperParsed (by decide) rfl).2
     (by decide),
   rfl⟩

/-- `"a.."`. -/
def aDotDot : GoStr := ['a', '.', '.']
/-- `"https://a."`. -/
def httpsADot : GoStr := ['h', 't', 't', 'p', 's', ':', '/', '/', 'a', '.']
/-- `"https://a"`. -/
def httpsA : GoStr := ['h', 't', 't', 'p', 's', ':', '/', '/', 'a']

/-- C3 counterexample: normalization is not idempotent. `"a.."` normalizes
successfully to `"https://a."` (only one trailing dot is stripped), and
normalizing that result again gives the different string `"https://a"`. -/
theorem C3_normalizeOrigin_counterexample :
    normalizeOrigin aDotDot = .ok httpsADot ∧
    normalizeOrigin httpsADot = .ok httpsA ∧
    httpsADot ≠ httpsA :=
  ⟨rfl, rfl, by decide⟩

/-- C3 (amended): normalization is idempotent on every input whose
normalized form `scheme://host` has a simple scheme (non-empty, led by a
lower-case letter, built from lower-case letters, digits and `+ - .`) and a
simple host (non-empty, built from lower-case letters, digits and `. - _`,
not ending in a dot): for such x, `normalizeOrigin` maps the normalized form
to itself, i.e. `normalize(normalize(x)) = normalize(x)`. In general a
second normalization can differ (hosts with a trailing `".."`, a percent
escape, brackets, or a colon). -/
theorem C3_normalizeOrigin_amended (x o s h : GoStr)
    (hx : normalizeOrigin x = .ok o) (ho : o = s ++ schemeSep ++ h)
    (hs : goodScheme s = true) (hh : goodHost h = true) :
    normalizeOrigin o = .ok o := by
  clear hx
  rw [ho]
  exact normalizeOrigin_fixedpoint s h hs hh

/-- `"Example.com"`. -/
def exCased : GoStr := ['E', 'x', 'a', 'm', 'p', 'l', 'e', '.', 'c', 'o', 'm']
/-- `"example.com"`, the host part of the normalized example origin. -/
def exHostLower : GoStr := ['e', 'x', 'a', 'm', 'p', 'l', 'e', '.', 'c', 'o', 'm']

/-- Witness for C3: `"Example.com"` normalizes to `"https://example.com"`,
and that normalized form is a fixed point of normalization. -/
theorem C3_normalizeOrigin_witness :
    normalizeOrigin exOrigin = .ok exOrigin :=
  C3_normalizeOrigin_amended exCased exOrigin defaultScheme exHostLower
    rfl rfl (by decide) (by decide)

end MaskedFastmail
